import Mathlib

/-!
# Verification of the debug-tracer file-output subsystem and log-analysis CLI

Shallow embedding of the repository's core logic:

* `DebugFileWriter` (src/dist/fileWriter — mode policy, buffering, flush) is
  embedded as a pure state machine `WriterState` with `writeEntry`, `flush`,
  `setRequestId` mirroring the TypeScript methods.
* The log-analysis CLI (`readLogFile`, `analyzeCommand`, `errorsCommand`,
  `perfCommand`) is embedded as pure functions over parsed `Json` sequences.
* JSON values are modelled by the inductive `Json`; numbers are modelled as
  integers (all numeric payloads appearing in this repository are integral;
  IEEE floating point is outside the embedding).  `JSON.stringify` and
  `JSON.parse` are modelled by `printJ`/`jsonParse` over character lists.
* A file is modelled as its list of lines (the writer emits one
  newline-terminated line per buffered entry; the reader consumes the file
  line by line).
-/

namespace DebugTracer

/-- JSON-like runtime values.  Mappings are ordered key/value lists (JavaScript
objects enumerate string keys in insertion order and cannot contain duplicate
keys); numbers are modelled as integers. -/
inductive Json where
  | null : Json
  | bool (b : Bool) : Json
  | num (n : Int) : Json
  | str (s : String) : Json
  | arr (elems : List Json) : Json
  | obj (fields : List (String × Json)) : Json

/-- JavaScript property access `v.k` (also the guarded `v?.k`) on an arbitrary
value: defined (the first binding) on objects that carry the key, undefined
(`none`) on everything else. -/
def jget : Json → String → Option Json
  | Json.obj fields, k => List.lookup k fields
  | _, _ => none

/-- Property access through an optional value, modelling `x?.k` where `x` may
itself be `undefined`. -/
def jgetO : Option Json → String → Option Json
  | some v, k => jget v k
  | none, _ => none

/-- JavaScript truthiness of a value: `null`, `false`, `0` and `""` are falsy,
every object and array is truthy. -/
def Json.truthy : Json → Bool
  | Json.null => false
  | Json.bool b => b
  | Json.num n => n != 0
  | Json.str s => s != ""
  | Json.arr _ => true
  | Json.obj _ => true

/-- Truthiness of a possibly-undefined value (`undefined` is falsy). -/
def truthyO : Option Json → Bool
  | some v => v.truthy
  | none => false

/-- `key in data` for an object's field list. -/
def hasKey (fields : List (String × Json)) (k : String) : Bool :=
  (List.lookup k fields).isSome

/-! ## The file writer (`DebugFileWriter`) -/

/-- Output modes of the file writer (`FileMode` in fileWriter). -/
inductive FileMode where
  | minimal : FileMode
  | detailed : FileMode
  | full : FileMode
deriving DecidableEq, Repr

/-- One buffered log record (`DebugFileEntry`).  `nsp` embeds the `namespace`
field (a Lean keyword); `requestId` embeds `metadata.requestId` (the writer
only ever populates `metadata` with that single key).  `data = none` covers
both an unset `data` property and one set to `undefined` — `JSON.stringify`
omits the field in either case. -/
structure DebugFileEntry where
  timestamp : String
  nsp : String
  message : String
  data : Option Json
  requestId : Option String

/-- `DebugFileWriter.shouldWrite(namespace, data)`.  Under `minimal` the data
test `data && typeof data === 'object' && ('duration' in data || 'elapsed' in
data)` only succeeds on (truthy) objects whose own keys include `duration` or
`elapsed`; arrays have neither key, and `null` fails the truthiness guard. -/
def shouldWrite (mode : FileMode) (nsp : String) (data : Option Json) : Bool :=
  match mode with
  | FileMode.minimal =>
      nsp == "performance" || nsp == "timing" ||
        (match data with
         | some (Json.obj fields) => hasKey fields "duration" || hasKey fields "elapsed"
         | _ => false)
  | FileMode.detailed => !(["trace", "verbose", "debug"].contains nsp)
  | FileMode.full => true

/-- JavaScript property assignment `obj[k] = v` on an object: when the key
already exists the value is updated in place (the property keeps its
original position), otherwise a new binding is appended in enumeration
order.  (Keys of a JavaScript object are unique, so the replacing map
touches at most one binding.) -/
def objAssign (fields : List (String × Json)) (k : String) (v : Json) :
    List (String × Json) :=
  if (List.lookup k fields).isSome then
    fields.map (fun p => if p.1 = k then (p.1, v) else p)
  else fields ++ [(k, v)]

mutual

/-- `DebugFileWriter.truncate(data, maxDepth = 3, currentDepth = 0)`:
recursively truncates `detailed`-mode payloads.  Structure at or beyond
`maxDepth` collapses to `"[truncated]"`; arrays keep their first 5 elements;
objects keep their first 11 enumerated keys (the loop breaks once the
post-incremented counter exceeds 10) and then receive a
`truncated['...'] = 'truncated'` marker assignment; strings longer than 200
characters are cut to 200 plus a suffix marker. -/
def truncate (data : Json) (maxDepth currentDepth : Nat) : Json :=
  if currentDepth ≥ maxDepth then Json.str "[truncated]"
  else
    match data with
    | Json.arr elems => Json.arr (truncItems elems maxDepth currentDepth 5)
    | Json.obj fields => Json.obj (truncFields fields maxDepth currentDepth 0 [])
    | Json.str s =>
        if s.length > 200 then Json.str (String.mk (s.data.take 200) ++ "...[truncated]")
        else Json.str s
    | other => other

/-- `data.slice(0, 5).map(item => this.truncate(item, maxDepth,
currentDepth + 1))` from the array case of `truncate`, as a bounded map:
`room` counts the slots the slice still allows (initially 5). -/
def truncItems (elems : List Json) (maxDepth currentDepth room : Nat) : List Json :=
  match elems, room with
  | [], _ => []
  | _ :: _, 0 => []
  | x :: xs, r + 1 => truncate x maxDepth (currentDepth + 1) :: truncItems xs maxDepth currentDepth r

/-- The `for (const [key, value] of Object.entries(data))` loop inside
`truncate`, accumulating the `truncated` object it builds: while
`count ≤ 10` (post-incremented counter) each field's value is recursively
truncated and assigned via `truncated[key] = ...`; at the first field with
`count > 10` the loop performs `truncated['...'] = 'truncated'` — a property
assignment that overwrites in place when `"..."` was among the kept keys —
and breaks. -/
def truncFields (fields : List (String × Json)) (maxDepth currentDepth count : Nat)
    (truncated : List (String × Json)) : List (String × Json) :=
  match fields with
  | [] => truncated
  | (k, v) :: rest =>
      if count > 10 then objAssign truncated "..." (Json.str "truncated")
      else truncFields rest maxDepth currentDepth (count + 1)
        (objAssign truncated k (truncate v maxDepth (currentDepth + 1)))

end

/-- The fixed allow-list of `minimal`-mode keys, in the order the source
enumerates them. -/
def allowList : List String := ["duration", "elapsed", "timing", "error", "status", "count"]

/-- The `essential` object built by `processData` in `minimal` mode: for each
allow-list key present in the input, the binding is copied (in allow-list
order, matching the `forEach` over the literal key array). -/
def essentialOf (fields : List (String × Json)) : List (String × Json) :=
  allowList.filterMap (fun k => (List.lookup k fields).map (fun v => (k, v)))

/-- `DebugFileWriter.processData(data)`.  `minimal`: payloads satisfying
`typeof data === 'object' && data !== null` are reduced to their `essential`
allow-list bindings, yielding `undefined` (`none`) when no allow-list key is
present.  Arrays also satisfy that test, and none of the six allow-list
keys is ever a property of an array, so `essential` stays empty and the
result is `undefined`.  `null` and primitive values fall through unchanged.
`detailed`: the payload is truncated.  `full`: the payload is returned
as-is. -/
def processData (mode : FileMode) (data : Json) : Option Json :=
  match mode with
  | FileMode.minimal =>
      match data with
      | Json.obj fields =>
          if (essentialOf fields).length > 0 then some (Json.obj (essentialOf fields))
          else none
      | Json.arr _ => none
      | other => some other
  | FileMode.detailed => some (truncate data 3 0)
  | FileMode.full => some data

/-- Writer state: the mode and capacity are fixed at construction;
`fileStream` records whether `initializeFile` succeeded in opening the target
(`false` embeds the `fileStream = null` degraded state); `file` is the target
file's content as a list of lines. -/
structure WriterState where
  mode : FileMode
  maxBufferSize : Nat
  buffer : List DebugFileEntry
  fileStream : Bool
  file : List String
  currentRequestId : Option String

/-- Serialization of one entry for `JSON.stringify(entry)`: keys appear in the
order the source assigns them (`timestamp`, `namespace`, `message`, then
`data` if defined, then `metadata` if attached); an undefined `data` is
omitted entirely. -/
def entryToJson (e : DebugFileEntry) : Json :=
  Json.obj
    ([("timestamp", Json.str e.timestamp), ("namespace", Json.str e.nsp),
      ("message", Json.str e.message)] ++
     (match e.data with
      | some d => [("data", d)]
      | none => []) ++
     (match e.requestId with
      | some r => [("metadata", Json.obj [("requestId", Json.str r)])]
      | none => []))

/-- `DebugFileWriter.flush()`: a no-op when the buffer is empty or the stream
is unavailable; otherwise each buffered entry is appended to the file as one
JSON line, in buffer order, and the buffer is cleared. -/
def flush (serialize : DebugFileEntry → String) (s : WriterState) : WriterState :=
  if s.buffer.length = 0 ∨ s.fileStream = false then s
  else { s with file := s.file ++ s.buffer.map serialize, buffer := [] }

/-- `DebugFileWriter.write(namespace, message, data)`.  The timestamp is the
clock reading (`new Date().toISOString()`) at the moment of the call, passed
in explicitly.  Rejected calls return immediately; accepted calls build the
entry (shaping the payload when one was passed, attaching the request id when
the current one is truthy), append it to the buffer, and flush when the
buffer has reached capacity. -/
def writeEntry (serialize : DebugFileEntry → String) (ts nsp message : String)
    (data : Option Json) (s : WriterState) : WriterState :=
  if !shouldWrite s.mode nsp data then s
  else
    let entry : DebugFileEntry :=
      { timestamp := ts, nsp := nsp, message := message,
        data := match data with
                | some d => processData s.mode d
                | none => none,
        requestId := match s.currentRequestId with
                     | some r => if r == "" then none else some r
                     | none => none }
    let s' := { s with buffer := s.buffer ++ [entry] }
    if s'.buffer.length ≥ s'.maxBufferSize then flush serialize s' else s'

/-- `DebugFileWriter.setRequestId(requestId)`. -/
def setRequestId (r : Option String) (s : WriterState) : WriterState :=
  { s with currentRequestId := r }

/-- The state right after the constructor ran `initializeFile()` at clock
reading `ts`: on success the stream is open and the session header (a leading
blank line plus the marker line, from the single `write` of
`"\n--- Debug session started at ... ---\n"`) is in the file; on failure the
stream is `null` and nothing was written. -/
def initWriter (mode : FileMode) (maxBufferSize : Nat) (ok : Bool) (ts : String) :
    WriterState :=
  { mode := mode, maxBufferSize := maxBufferSize, buffer := [],
    fileStream := ok,
    file := if ok then ["", "--- Debug session started at " ++ ts ++ " ---"] else [],
    currentRequestId := none }

/-- The operations a caller can perform on a live writer.  `flushOp` covers
every flush trigger that is not the capacity check inside `write` — the
once-per-second timer, the public `flush()`, and the flush inside
`destroy()` — all of which call the same `flush` method. -/
inductive WriterOp where
  | write (ts nsp message : String) (data : Option Json) : WriterOp
  | flushOp : WriterOp
  | setReq (r : Option String) : WriterOp

/-! ## JSON serialization (`JSON.stringify`, compact form) -/

/-- The decimal digit characters. -/
def digitChar : Nat → Char
  | 0 => '0' | 1 => '1' | 2 => '2' | 3 => '3' | 4 => '4'
  | 5 => '5' | 6 => '6' | 7 => '7' | 8 => '8' | _ => '9'

/-- The lowercase hexadecimal digit characters (as emitted by
`JSON.stringify` in `\u00xx` escapes). -/
def hexChar : Nat → Char
  | 0 => '0' | 1 => '1' | 2 => '2' | 3 => '3' | 4 => '4'
  | 5 => '5' | 6 => '6' | 7 => '7' | 8 => '8' | 9 => '9'
  | 10 => 'a' | 11 => 'b' | 12 => 'c' | 13 => 'd' | 14 => 'e' | _ => 'f'

/-- Decimal printing of a natural number, most significant digit first
(accumulator form, fuelled: any fuel above the digit count is enough). -/
def printNatAcc : Nat → Nat → List Char → List Char
  | 0, _, acc => acc
  | fuel + 1, n, acc =>
      if n < 10 then digitChar n :: acc
      else printNatAcc fuel (n / 10) (digitChar (n % 10) :: acc)

/-- Decimal printing of a natural number. -/
def printNat (n : Nat) : List Char := printNatAcc (n + 1) n []

/-- Decimal printing of an integer (JavaScript prints integral numbers with
no fraction or exponent). -/
def printInt (n : Int) : List Char :=
  if n < 0 then '-' :: printNat n.natAbs else printNat n.natAbs

/-- String-character escaping as performed by `JSON.stringify`: quote and
backslash get a backslash escape, the five common control characters get
their short escapes, the remaining control characters become `\u00xx`, and
every other character is emitted literally. -/
def escapeChar (c : Char) : List Char :=
  if c = '"' then ['\\', '"']
  else if c = '\\' then ['\\', '\\']
  else if c = '\x08' then ['\\', 'b']
  else if c = '\x09' then ['\\', 't']
  else if c = '\x0a' then ['\\', 'n']
  else if c = '\x0c' then ['\\', 'f']
  else if c = '\x0d' then ['\\', 'r']
  else if c.toNat < 32 then
    ['\\', 'u', '0', '0', hexChar (c.toNat / 16), hexChar (c.toNat % 16)]
  else [c]

/-- A JSON string literal: quoted, with every character escaped as needed. -/
def printString (s : String) : List Char :=
  '"' :: (s.data.map escapeChar).flatten ++ ['"']

mutual

/-- Compact JSON printing of a value, character by character, exactly as
`JSON.stringify` would emit it (no whitespace, fields in enumeration
order). -/
def printJ : Json → List Char
  | Json.null => ['n', 'u', 'l', 'l']
  | Json.bool true => ['t', 'r', 'u', 'e']
  | Json.bool false => ['f', 'a', 'l', 's', 'e']
  | Json.num n => printInt n
  | Json.str s => printString s
  | Json.arr elems => '[' :: printItems elems
  | Json.obj fields => '\x7b' :: printFields fields

/-- Array elements after the opening bracket, up to and including the
closing bracket. -/
def printItems : List Json → List Char
  | [] => [']']
  | x :: xs => printJ x ++ printItemsTail xs

/-- Remaining array elements, each preceded by a comma, then the closing
bracket. -/
def printItemsTail : List Json → List Char
  | [] => [']']
  | x :: xs => ',' :: (printJ x ++ printItemsTail xs)

/-- Object fields after the opening brace, up to and including the closing
brace. -/
def printFields : List (String × Json) → List Char
  | [] => ['\x7d']
  | (k, v) :: fs => printString k ++ ':' :: (printJ v ++ printFieldsTail fs)

/-- Remaining object fields, each preceded by a comma, then the closing
brace. -/
def printFieldsTail : List (String × Json) → List Char
  | [] => ['\x7d']
  | (k, v) :: fs => ',' :: (printString k ++ ':' :: (printJ v ++ printFieldsTail fs))

end

/-- `JSON.stringify` on the modelled values. -/
def stringify (j : Json) : String := String.mk (printJ j)

/-- Serialization of one buffered entry to its JSON line. -/
def serializeEntry (e : DebugFileEntry) : String := stringify (entryToJson e)

/-- One operation applied to a live writer. -/
def step (s : WriterState) : WriterOp → WriterState
  | WriterOp.write ts nsp message data => writeEntry serializeEntry ts nsp message data s
  | WriterOp.flushOp => flush serializeEntry s
  | WriterOp.setReq r => setRequestId r s

/-- A sequence of operations applied to a live writer. -/
def run (s : WriterState) (ops : List WriterOp) : WriterState := ops.foldl step s

/-! ## JSON parsing (`JSON.parse`)

A recursive-descent parser over character lists, fuelled by the input length.
It accepts the JSON this system ever produces or reads back: the number
grammar is restricted to (signed) integers, matching the integral `Json.num`
model; a line carrying a fractional or exponent number fails to parse and is
skipped by the reader, exactly like any other unparseable line. -/

/-- The JSON whitespace characters. -/
def isWsChar (c : Char) : Bool :=
  c = ' ' || c = '\x09' || c = '\x0a' || c = '\x0d'

/-- Drop leading JSON whitespace. -/
def skipWs : List Char → List Char
  | [] => []
  | c :: rest => if isWsChar c then skipWs rest else c :: rest

/-- Decimal digit test. -/
def isDigitChar (c : Char) : Bool := '0' ≤ c && c ≤ '9'

/-- Value of a decimal digit character. -/
def dval (c : Char) : Nat := c.toNat - 48

/-- Value of a hexadecimal digit character (either case), if it is one. -/
def hval (c : Char) : Option Nat :=
  if '0' ≤ c && c ≤ '9' then some (c.toNat - 48)
  else if 'a' ≤ c && c ≤ 'f' then some (c.toNat - 87)
  else if 'A' ≤ c && c ≤ 'F' then some (c.toNat - 55)
  else none

/-- Whether the input does not begin with a decimal digit (the shape a
number's continuation must have for maximal-munch digit parsing). -/
def noDigitHead : List Char → Bool
  | [] => true
  | c :: _ => !isDigitChar c

/-- Consume an expected literal character sequence. -/
def expectChars : List Char → List Char → Option (List Char)
  | [], cs => some cs
  | e :: es, c :: cs => if c = e then expectChars es cs else none
  | _ :: _, [] => none

/-- Consume a maximal run of decimal digits, accumulating their value. -/
def parseDigitsAcc (a : Nat) : List Char → Nat × List Char
  | [] => (a, [])
  | c :: rest =>
      if isDigitChar c then parseDigitsAcc (10 * a + dval c) rest
      else (a, c :: rest)

/-- Parse the body of a JSON string literal (the opening quote already
consumed), handling the escape sequences `JSON.parse` accepts; returns the
decoded characters and the input after the closing quote. -/
def parseStringBody : List Char → Option (List Char × List Char)
  | [] => none
  | c :: rest =>
      if c = '"' then some ([], rest)
      else if c = '\\' then
        match rest with
        | [] => none
        | e :: rest' =>
            if e = '"' then (parseStringBody rest').map (fun p => ('"' :: p.1, p.2))
            else if e = '\\' then (parseStringBody rest').map (fun p => ('\\' :: p.1, p.2))
            else if e = '/' then (parseStringBody rest').map (fun p => ('/' :: p.1, p.2))
            else if e = 'b' then (parseStringBody rest').map (fun p => ('\x08' :: p.1, p.2))
            else if e = 'f' then (parseStringBody rest').map (fun p => ('\x0c' :: p.1, p.2))
            else if e = 'n' then (parseStringBody rest').map (fun p => ('\x0a' :: p.1, p.2))
            else if e = 'r' then (parseStringBody rest').map (fun p => ('\x0d' :: p.1, p.2))
            else if e = 't' then (parseStringBody rest').map (fun p => ('\x09' :: p.1, p.2))
            else if e = 'u' then
              match rest' with
              | h1 :: h2 :: h3 :: h4 :: rest'' =>
                  match hval h1, hval h2, hval h3, hval h4 with
                  | some a, some b, some c', some d =>
                      (parseStringBody rest'').map
                        (fun p => (Char.ofNat (((a * 16 + b) * 16 + c') * 16 + d) :: p.1, p.2))
                  | _, _, _, _ => none
              | _ => none
            else none
      else (parseStringBody rest).map (fun p => (c :: p.1, p.2))

mutual

/-- Parse one JSON value (after skipping leading whitespace), returning it
with the unconsumed remainder.  The fuel argument strictly exceeds the
number of characters the parse may consume. -/
def parseValue : Nat → List Char → Option (Json × List Char)
  | 0, _ => none
  | fuel + 1, cs =>
      match skipWs cs with
      | [] => none
      | c :: rest =>
          if c = 'n' then (expectChars ['u', 'l', 'l'] rest).map (fun r => (Json.null, r))
          else if c = 't' then
            (expectChars ['r', 'u', 'e'] rest).map (fun r => (Json.bool true, r))
          else if c = 'f' then
            (expectChars ['a', 'l', 's', 'e'] rest).map (fun r => (Json.bool false, r))
          else if c = '"' then
            (parseStringBody rest).map (fun p => (Json.str (String.mk p.1), p.2))
          else if c = '-' then
            match rest with
            | d :: _ =>
                if isDigitChar d then
                  let p := parseDigitsAcc 0 rest
                  some (Json.num (-(p.1 : Int)), p.2)
                else none
            | [] => none
          else if isDigitChar c then
            let p := parseDigitsAcc 0 (c :: rest)
            some (Json.num (p.1 : Int), p.2)
          else if c = '[' then parseItems fuel rest
          else if c = '\x7b' then parseFields fuel rest
          else none

/-- Parse the elements of an array, the opening bracket already consumed. -/
def parseItems : Nat → List Char → Option (Json × List Char)
  | 0, _ => none
  | fuel + 1, cs =>
      match skipWs cs with
      | [] => none
      | c :: rest =>
          if c = ']' then some (Json.arr [], rest)
          else
            (parseValue fuel cs).bind fun vr =>
              (parseItemsTail fuel vr.2).map fun lr => (Json.arr (vr.1 :: lr.1), lr.2)

/-- Parse `, value` repetitions until the closing bracket of an array. -/
def parseItemsTail : Nat → List Char → Option (List Json × List Char)
  | 0, _ => none
  | fuel + 1, cs =>
      match skipWs cs with
      | [] => none
      | c :: rest =>
          if c = ']' then some ([], rest)
          else if c = ',' then
            (parseValue fuel rest).bind fun vr =>
              (parseItemsTail fuel vr.2).map fun lr => (vr.1 :: lr.1, lr.2)
          else none

/-- Parse the fields of an object, the opening brace already consumed. -/
def parseFields : Nat → List Char → Option (Json × List Char)
  | 0, _ => none
  | fuel + 1, cs =>
      match skipWs cs with
      | [] => none
      | c :: rest =>
          if c = '\x7d' then some (Json.obj [], rest)
          else if c = '"' then
            (parseStringBody rest).bind fun kp =>
              match skipWs kp.2 with
              | c2 :: cs2 =>
                  if c2 = ':' then
                    (parseValue fuel cs2).bind fun vr =>
                      (parseFieldsTail fuel vr.2).map fun fr =>
                        (Json.obj ((String.mk kp.1, vr.1) :: fr.1), fr.2)
                  else none
              | [] => none
          else none

/-- Parse `, "key": value` repetitions until the closing brace of an
object. -/
def parseFieldsTail : Nat → List Char → Option (List (String × Json) × List Char)
  | 0, _ => none
  | fuel + 1, cs =>
      match skipWs cs with
      | [] => none
      | c :: rest =>
          if c = '\x7d' then some ([], rest)
          else if c = ',' then
            match skipWs rest with
            | c2 :: cs2 =>
                if c2 = '"' then
                  (parseStringBody cs2).bind fun kp =>
                    match skipWs kp.2 with
                    | c3 :: cs3 =>
                        if c3 = ':' then
                          (parseValue fuel cs3).bind fun vr =>
                            (parseFieldsTail fuel vr.2).map fun fr =>
                              ((String.mk kp.1, vr.1) :: fr.1, fr.2)
                        else none
                    | [] => none
                else none
            | [] => none
          else none

end

/-- `JSON.parse` on one line: parse a single value and require only trailing
whitespace after it. -/
def jsonParse (s : String) : Option Json :=
  match parseValue (s.length + 1) s.data with
  | some (v, rest) => if skipWs rest = [] then some v else none
  | none => none

/-! ## The log reader and analysis CLI -/

/-- `line.startsWith('{')`: the candidate test of `readLogFile`. -/
def headIsBrace (line : String) : Bool :=
  match line.data with
  | c :: _ => c = '\x7b'
  | [] => false

/-- The first non-whitespace character of a line, if any (the condition the
specification states for candidate lines). -/
def firstNonWsChar (line : String) : Option Char :=
  match skipWs line.data with
  | c :: _ => some c
  | [] => none

/-- The body of `readLogFile`'s line loop: a line starting with `{` is fed
to `JSON.parse` and pushed onto the result when it parses; all other lines
(session markers, corrupted lines) are skipped silently. -/
def readStep (logs : List Json) (line : String) : List Json :=
  if headIsBrace line then
    match jsonParse line with
    | some j => logs ++ [j]
    | none => logs
  else logs

/-- `readLogFile`, over the file's lines. -/
def readLogLines (lines : List String) : List Json :=
  lines.foldl readStep []

mutual

/-- Structural boolean equality on modelled values.  It is only ever used to
compare a value against a primitive literal (e.g. `log.level === 'error'`),
where JavaScript's strict equality is exactly value equality. -/
def Json.beq : Json → Json → Bool
  | Json.null, Json.null => true
  | Json.bool a, Json.bool b => a == b
  | Json.num a, Json.num b => a == b
  | Json.str a, Json.str b => a == b
  | Json.arr xs, Json.arr ys => beqItems xs ys
  | Json.obj fs, Json.obj gs => beqFlds fs gs
  | _, _ => false

/-- Elementwise `Json.beq` on lists. -/
def beqItems : List Json → List Json → Bool
  | [], [] => true
  | x :: xs, y :: ys => Json.beq x y && beqItems xs ys
  | _, _ => false

/-- Elementwise `Json.beq` on field lists. -/
def beqFlds : List (String × Json) → List (String × Json) → Bool
  | [], [] => true
  | (k, v) :: fs, (l, w) :: gs => k == l && Json.beq v w && beqFlds fs gs
  | _, _ => false

end

instance : BEq Json := ⟨Json.beq⟩

/-- Prefix test on character lists. -/
def hasPrefixL : List Char → List Char → Bool
  | [], _ => true
  | _ :: _, [] => false
  | p :: ps, c :: cs => p == c && hasPrefixL ps cs

/-- Substring test on character lists (`String.prototype.includes`). -/
def hasSubstr (needle : List Char) : List Char → Bool
  | [] => hasPrefixL needle []
  | c :: cs => hasPrefixL needle (c :: cs) || hasSubstr needle cs

/-- `s.toLowerCase()` (ASCII case folding, all this repository compares). -/
def lowerStr (s : String) : String := String.mk (s.data.map Char.toLower)

/-- `log.message?.toLowerCase().includes(w)`: false when `message` is absent.
(A non-string `message` would throw in JavaScript; entries of this system
always carry a string message.) -/
def msgIncludes (log : Json) (w : String) : Bool :=
  match jget log "message" with
  | some (Json.str m) => hasSubstr w.data (lowerStr m).data
  | _ => false

/-- The error predicate of `analyzeCommand` (the `summarize` view):
`log.data?.error || log.message?.toLowerCase().includes('error') ||
log.message?.toLowerCase().includes('failed')`. -/
def analyzeErrPred (log : Json) : Bool :=
  truthyO (jgetO (jget log "data") "error") ||
    msgIncludes log "error" || msgIncludes log "failed"

/-- The error predicate of `errorsCommand`: `log.data?.error ||
log.level === 'error' || log.message?.toLowerCase().includes('error') ||
...includes('failed') || ...includes('exception')`. -/
def errorsPred (log : Json) : Bool :=
  truthyO (jgetO (jget log "data") "error") ||
    jget log "level" == some (Json.str "error") ||
    msgIncludes log "error" || msgIncludes log "failed" || msgIncludes log "exception"

/-- The entries `errorsCommand` reports: every match, in file order. -/
def errorsView (logs : List Json) : List Json := logs.filter errorsPred

/-- The entries `analyzeCommand` counts as errors. -/
def analyzeErrors (logs : List Json) : List Json := logs.filter analyzeErrPred

/-- The performance predicate of `analyzeCommand` (the `summarize` view):
`log.data?.duration || log.data?.elapsed || log.data?.timing`. -/
def analyzePerfPred (log : Json) : Bool :=
  truthyO (jgetO (jget log "data") "duration") ||
    truthyO (jgetO (jget log "data") "elapsed") ||
    truthyO (jgetO (jget log "data") "timing")

/-- The performance predicate of `perfCommand`:
`log.namespace === 'performance' || log.data?.duration || log.data?.elapsed
|| log.data?.timing`. -/
def perfPredCmd (log : Json) : Bool :=
  jget log "namespace" == some (Json.str "performance") ||
    truthyO (jgetO (jget log "data") "duration") ||
    truthyO (jgetO (jget log "data") "elapsed") ||
    truthyO (jgetO (jget log "data") "timing")

/-- The entries `perfCommand` selects. -/
def perfView (logs : List Json) : List Json := logs.filter perfPredCmd

/-- The entries `analyzeCommand` counts as performance metrics. -/
def analyzePerf (logs : List Json) : List Json := logs.filter analyzePerfPred

/-- The grouping key of `perfCommand`: `log.message || 'Unknown'`. -/
def opName (log : Json) : String :=
  match jget log "message" with
  | some (Json.str m) => if m == "" then "Unknown" else m
  | _ => "Unknown"

/-- `log.data?.duration || log.data?.elapsed || log.data?.timing` as pushed
by `perfCommand`'s grouping loop, guarded by `if (duration)`: the first
truthy of the three fields, if any is truthy. -/
def durOf (log : Json) : Option Json :=
  if truthyO (jgetO (jget log "data") "duration") then jgetO (jget log "data") "duration"
  else if truthyO (jgetO (jget log "data") "elapsed") then jgetO (jget log "data") "elapsed"
  else if truthyO (jgetO (jget log "data") "timing") then jgetO (jget log "data") "timing"
  else none

/-- One step of `perfCommand`'s grouping loop on the `operations` object:
`if (!operations[op]) operations[op] = []` (insertion order append) followed
by `if (duration) operations[op].push(duration)`. -/
def addDur : List (String × List Json) → String → Option Json → List (String × List Json)
  | [], m, d => [(m, d.toList)]
  | (k, vs) :: rest, m, d =>
      if k = m then (k, vs ++ d.toList) :: rest else (k, vs) :: addDur rest m d

/-- The `operations` object built by `perfCommand` over the matching
entries, in insertion order. -/
def perfGroups (logs : List Json) : List (String × List Json) :=
  (perfView logs).foldl (fun ops log => addDur ops (opName log) (durOf log)) []

/-- The per-operation report of `perfCommand`: only groups with at least one
pushed numeric value are printed, with `Count` equal to the number of pushed
values. -/
def perfReport (logs : List Json) : List (String × List Json) :=
  (perfGroups logs).filter (fun p => p.2.length > 0)

/-! ## Supporting lemmas -/

theorem lookup_cons {β : Type} (m k : String) (vs : β) (rest : List (String × β)) :
    List.lookup m ((k, vs) :: rest) = if m == k then some vs else List.lookup m rest := by
  simp only [List.lookup]
  cases m == k <;> simp

theorem flush_eq_self (serialize : DebugFileEntry → String) (s : WriterState)
    (h : s.buffer = [] ∨ s.fileStream = false) : flush serialize s = s := by
  unfold flush
  rcases h with h | h <;> simp [h]

theorem flush_eq_append (serialize : DebugFileEntry → String) (s : WriterState)
    (h1 : s.buffer ≠ []) (h2 : s.fileStream = true) :
    flush serialize s =
      { s with file := s.file ++ s.buffer.map serialize, buffer := [] } := by
  unfold flush
  simp [h2, List.length_eq_zero, h1]

theorem flush_idem (serialize : DebugFileEntry → String) (s : WriterState) :
    flush serialize (flush serialize s) = flush serialize s := by
  by_cases h : s.buffer = [] ∨ s.fileStream = false
  · rw [flush_eq_self serialize s h, flush_eq_self serialize s h]
  · push_neg at h
    rw [flush_eq_append serialize s h.1 (by simpa using h.2)]
    exact flush_eq_self serialize _ (Or.inl rfl)

/-! ## Claims -/

/-- C1: a writer configured with mode `minimal` and capacity threshold 2,
receiving `write("performance","op1",{duration:10})`, `write("debug","x")`,
`write("performance","op2",{duration:20})`, persists exactly 2 entries (the
two serialized performance entries, appended to the session header by the
flush the second performance call triggers on reaching the threshold), ends
with an empty buffer, had persisted nothing before the third call, and the
`debug` call is rejected without touching any state. -/
theorem minimal_capacity2_scenario :
    (run (initWriter FileMode.minimal 2 true "T0")
        [WriterOp.write "T1" "performance" "op1" (some (Json.obj [("duration", Json.num 10)])),
         WriterOp.write "T2" "debug" "x" none,
         WriterOp.write "T3" "performance" "op2" (some (Json.obj [("duration", Json.num 20)]))]).file =
      ["", "--- Debug session started at T0 ---",
       serializeEntry ⟨"T1", "performance", "op1", some (Json.obj [("duration", Json.num 10)]), none⟩,
       serializeEntry ⟨"T3", "performance", "op2", some (Json.obj [("duration", Json.num 20)]), none⟩] ∧
    ((run (initWriter FileMode.minimal 2 true "T0")
        [WriterOp.write "T1" "performance" "op1" (some (Json.obj [("duration", Json.num 10)])),
         WriterOp.write "T2" "debug" "x" none,
         WriterOp.write "T3" "performance" "op2"
           (some (Json.obj [("duration", Json.num 20)]))]).file.filter headIsBrace).length = 2 ∧
    (run (initWriter FileMode.minimal 2 true "T0")
        [WriterOp.write "T1" "performance" "op1" (some (Json.obj [("duration", Json.num 10)])),
         WriterOp.write "T2" "debug" "x" none,
         WriterOp.write "T3" "performance" "op2"
           (some (Json.obj [("duration", Json.num 20)]))]).buffer = [] ∧
    ((run (initWriter FileMode.minimal 2 true "T0")
        [WriterOp.write "T1" "performance" "op1" (some (Json.obj [("duration", Json.num 10)])),
         WriterOp.write "T2" "debug" "x" none]).file.filter headIsBrace).length = 0 ∧
    run (initWriter FileMode.minimal 2 true "T0")
        [WriterOp.write "T1" "performance" "op1" (some (Json.obj [("duration", Json.num 10)])),
         WriterOp.write "T2" "debug" "x" none] =
      run (initWriter FileMode.minimal 2 true "T0")
        [WriterOp.write "T1" "performance" "op1" (some (Json.obj [("duration", Json.num 10)]))] :=
  ⟨rfl, rfl, rfl, rfl, rfl⟩

/-- C2 counterexample: an entry whose message contains "exception" (and has
no error data) is selected by the `errors` view but not by `summarize`'s
error predicate, so the two predicates are not the same. -/
theorem errors_pred_differs_on_exception :
    let logs := [Json.obj [("timestamp", Json.str "t"), ("namespace", Json.str "app"),
      ("message", Json.str "Unhandled exception")]]
    errorsView logs = logs ∧ analyzeErrors logs = [] :=
  ⟨rfl, rfl⟩

/-- C2 (amended): the `errors` view selects with a strict superset of
`summarize`'s error predicate — an entry matches iff it satisfies
`summarize`'s predicate, or its `level` field strict-equals `"error"`, or
its message case-insensitively contains `"exception"` — and it returns the
full matching set with no limit, in file order (the view distributes over
concatenation). -/
theorem errors_pred_superset :
    (∀ log : Json, errorsPred log =
        (analyzeErrPred log || (jget log "level" == some (Json.str "error")) ||
          msgIncludes log "exception")) ∧
    (∀ l1 l2 : List Json, errorsView (l1 ++ l2) = errorsView l1 ++ errorsView l2) := by
  constructor
  · intro log
    simp only [errorsPred, analyzeErrPred]
    generalize truthyO (jgetO (jget log "data") "error") = a
    generalize (jget log "level" == some (Json.str "error")) = b
    generalize msgIncludes log "error" = c
    generalize msgIncludes log "failed" = d
    generalize msgIncludes log "exception" = e
    revert a b c d e
    decide
  · intro l1 l2
    simp [errorsView, List.filter_append]

/-- C6 counterexample: an entry with namespace `"performance"` and no data
is selected by the `perf` view but not by `summarize`'s performance
predicate, so the two predicates are not the same. -/
theorem perf_pred_differs_on_namespace :
    let logs := [Json.obj [("timestamp", Json.str "t"),
      ("namespace", Json.str "performance"), ("message", Json.str "op")]]
    perfView logs = logs ∧ analyzePerf logs = [] :=
  ⟨rfl, rfl⟩

/-- C6 (amended): the `perf` view selects exactly the entries matching
`summarize`'s performance predicate OR whose namespace strict-equals
`"performance"`. -/
theorem perf_pred_namespace_or_analyze :
    ∀ log : Json, perfPredCmd log =
      ((jget log "namespace" == some (Json.str "performance")) || analyzePerfPred log) := by
  intro log
  simp only [perfPredCmd, analyzePerfPred, Bool.or_assoc]

/-- C9: `flush()` is the identity when the buffer is empty or the stream is
unavailable; otherwise it appends the serialization of every buffered entry
to the file in buffer order and clears the buffer; and it is idempotent, so
re-flushing never persists an entry a second time. -/
theorem flush_contract :
    (∀ s : WriterState, s.buffer = [] ∨ s.fileStream = false →
        flush serializeEntry s = s) ∧
    (∀ s : WriterState, s.buffer ≠ [] → s.fileStream = true →
        flush serializeEntry s =
          { s with file := s.file ++ s.buffer.map serializeEntry, buffer := [] }) ∧
    (∀ s : WriterState, flush serializeEntry (flush serializeEntry s) = flush serializeEntry s) :=
  ⟨fun s h => flush_eq_self serializeEntry s h,
   fun s h1 h2 => flush_eq_append serializeEntry s h1 h2,
   fun s => flush_idem serializeEntry s⟩
theorem objAssign_fresh (fields : List (String × Json)) (k : String) (v : Json)
    (h : List.lookup k fields = none) : objAssign fields k v = fields ++ [(k, v)] := by
  unfold objAssign
  simp [h]

theorem objAssign_hit (fields : List (String × Json)) (k : String) (v : Json)
    (h : (List.lookup k fields).isSome) :
    objAssign fields k v = fields.map (fun p => if p.1 = k then (p.1, v) else p) := by
  unfold objAssign
  simp [h]

theorem lookup_append_left_none {β : Type} (x : String) (l1 l2 : List (String × β))
    (h : List.lookup x l1 = none) : List.lookup x (l1 ++ l2) = List.lookup x l2 := by
  induction l1 with
  | nil => rfl
  | cons p l1 ih =>
      obtain ⟨k, v⟩ := p
      rw [List.cons_append, lookup_cons]
      rw [lookup_cons] at h
      by_cases hx : (x == k) = true
      · rw [if_pos hx] at h
        exact absurd h (by simp)
      · rw [if_neg hx] at h
        rw [if_neg hx]
        exact ih h

theorem lookup_eq_none_of_not_mem_keys {β : Type} (x : String) (l : List (String × β))
    (h : x ∉ l.map Prod.fst) : List.lookup x l = none := by
  induction l with
  | nil => rfl
  | cons p l ih =>
      obtain ⟨k, v⟩ := p
      simp only [List.map_cons, List.mem_cons, not_or] at h
      rw [lookup_cons, if_neg (by simp [h.1])]
      exact ih h.2

theorem lookup_isSome_of_mem_keys {β : Type} (x : String) (l : List (String × β))
    (h : x ∈ l.map Prod.fst) : (List.lookup x l).isSome := by
  induction l with
  | nil => simp at h
  | cons p l ih =>
      obtain ⟨k, v⟩ := p
      simp only [List.map_cons, List.mem_cons] at h
      by_cases hx : (x == k) = true
      · rw [lookup_cons, if_pos hx]
        rfl
      · rw [lookup_cons, if_neg hx]
        exact ih (h.resolve_left (by simpa using hx))

theorem keys_map_snd (f : String × Json → Json) (l : List (String × Json)) :
    (l.map (fun p => (p.1, f p))).map Prod.fst = l.map Prod.fst := by
  induction l with
  | nil => rfl
  | cons p l ih => simp [ih]

theorem truncFields_go (maxD curD : Nat) (fs : List (String × Json)) :
    ∀ (c : Nat) (acc : List (String × Json)), c ≤ 11 →
      (∀ x ∈ (fs.take (11 - c)).map Prod.fst, List.lookup x acc = none) →
      ((fs.take (11 - c)).map Prod.fst).Nodup →
      truncFields fs maxD curD c acc =
        if fs.length ≤ 11 - c then
          acc ++ fs.map (fun p => (p.1, truncate p.2 maxD (curD + 1)))
        else
          objAssign
            (acc ++ (fs.take (11 - c)).map (fun p => (p.1, truncate p.2 maxD (curD + 1))))
            "..." (Json.str "truncated") := by
  induction fs with
  | nil =>
      intro c acc hc hfresh hnd
      simp [truncFields]
  | cons p rest ih =>
      intro c acc hc hfresh hnd
      obtain ⟨k, v⟩ := p
      by_cases h10 : c > 10
      · have h0 : 11 - c = 0 := by omega
        simp only [truncFields, if_pos h10, h0, List.take_zero, List.map_nil,
          List.append_nil]
        rw [if_neg (by simp)]
      · have h11c : 11 - c = (11 - (c + 1)) + 1 := by omega
        have htake : (((k, v) :: rest).take (11 - c)) =
            (k, v) :: rest.take (11 - (c + 1)) := by
          rw [h11c, List.take_succ_cons]
        rw [htake] at hfresh hnd
        simp only [List.map_cons, List.mem_cons, List.nodup_cons] at hfresh hnd
        have hkfresh : List.lookup k acc = none := hfresh k (Or.inl rfl)
        have hstep : truncFields ((k, v) :: rest) maxD curD c acc =
            truncFields rest maxD curD (c + 1)
              (acc ++ [(k, truncate v maxD (curD + 1))]) := by
          simp only [truncFields, if_neg h10]
          rw [objAssign_fresh _ _ _ hkfresh]
        have hfresh' : ∀ x ∈ (rest.take (11 - (c + 1))).map Prod.fst,
            List.lookup x (acc ++ [(k, truncate v maxD (curD + 1))]) = none := by
          intro x hx
          rw [lookup_append_left_none _ _ _ (hfresh x (Or.inr hx))]
          rw [lookup_cons, if_neg (by simp; intro he; exact hnd.1 (he ▸ hx))]
          rfl
        rw [hstep, ih (c + 1) _ (by omega) hfresh' hnd.2]
        by_cases hlen : rest.length ≤ 11 - (c + 1)
        · rw [if_pos hlen, if_pos (by simp; omega)]
          simp [List.append_assoc]
        · rw [if_neg hlen, if_neg (by simp; omega), htake]
          simp [List.append_assoc]

/-- C3 counterexample: a 15-key mapping (with `"..."` not among its keys)
written under `detailed` mode persists as a 12-key mapping — the first 11
input keys followed by the truncation marker — not as an 11-key mapping
with the marker 11th. -/
theorem detailed_15_keys_persist_as_12 :
    let fs : List (String × Json) :=
      [("k1", Json.num 1), ("k2", Json.num 2), ("k3", Json.num 3), ("k4", Json.num 4),
       ("k5", Json.num 5), ("k6", Json.num 6), ("k7", Json.num 7), ("k8", Json.num 8),
       ("k9", Json.num 9), ("k10", Json.num 10), ("k11", Json.num 11), ("k12", Json.num 12),
       ("k13", Json.num 13), ("k14", Json.num 14), ("k15", Json.num 15)]
    processData FileMode.detailed (Json.obj fs) =
      some (Json.obj
        [("k1", Json.num 1), ("k2", Json.num 2), ("k3", Json.num 3), ("k4", Json.num 4),
         ("k5", Json.num 5), ("k6", Json.num 6), ("k7", Json.num 7), ("k8", Json.num 8),
         ("k9", Json.num 9), ("k10", Json.num 10), ("k11", Json.num 11),
         ("...", Json.str "truncated")]) ∧
    (match processData FileMode.detailed (Json.obj fs) with
     | some (Json.obj gs) => gs.length
     | _ => 0) = 12 ∧
    ¬((match processData FileMode.detailed (Json.obj fs) with
       | some (Json.obj gs) => gs.length
       | _ => 0) = 11) :=
  ⟨rfl, rfl, by decide⟩

/-- C3 (amended): for every mapping of 15 distinct keys written under
`detailed` mode, the first 11 enumerated keys are kept (values truncated
one level deeper) and enumeration stops at the 12th with the marker
assignment `truncated['...'] = 'truncated'`: when `"..."` is not among the
kept keys the persisted mapping has 12 keys, the 12th being the marker;
when `"..."` is among them the assignment overwrites that key in place and
the persisted mapping has 11 keys. -/
theorem detailed_15_key_truncation (fs : List (String × Json)) (h15 : fs.length = 15)
    (hnd : ((fs.take 11).map Prod.fst).Nodup) :
    ("..." ∉ (fs.take 11).map Prod.fst →
      processData FileMode.detailed (Json.obj fs) =
        some (Json.obj ((fs.take 11).map (fun p => (p.1, truncate p.2 3 (0 + 1))) ++
          [("...", Json.str "truncated")])) ∧
      ((fs.take 11).map (fun p => (p.1, truncate p.2 3 (0 + 1))) ++
          [("...", Json.str "truncated")]).length = 12) ∧
    ("..." ∈ (fs.take 11).map Prod.fst →
      processData FileMode.detailed (Json.obj fs) =
        some (Json.obj ((fs.take 11).map (fun p =>
          if p.1 = "..." then (p.1, Json.str "truncated")
          else (p.1, truncate p.2 3 (0 + 1))))) ∧
      ((fs.take 11).map (fun p =>
          if p.1 = "..." then (p.1, Json.str "truncated")
          else (p.1, truncate p.2 3 (0 + 1)))).length = 11) := by
  have hbase : processData FileMode.detailed (Json.obj fs) =
      some (Json.obj (objAssign
        ((fs.take 11).map (fun p => (p.1, truncate p.2 3 (0 + 1))))
        "..." (Json.str "truncated"))) := by
    simp only [processData]
    rw [show truncate (Json.obj fs) 3 0 = Json.obj (truncFields fs 3 0 0 []) from by
      simp [truncate]]
    rw [truncFields_go 3 0 fs 0 [] (by omega) (by intro x hx; rfl)
      (by simpa using hnd)]
    rw [if_neg (by omega)]
    simp
  have hkeys : ((fs.take 11).map (fun p => (p.1, truncate p.2 3 (0 + 1)))).map Prod.fst =
      (fs.take 11).map Prod.fst :=
    keys_map_snd (fun p => truncate p.2 3 (0 + 1)) (fs.take 11)
  constructor
  · intro hnomem
    have hnone : List.lookup "..."
        ((fs.take 11).map (fun p => (p.1, truncate p.2 3 (0 + 1)))) = none :=
      lookup_eq_none_of_not_mem_keys _ _ (by rw [hkeys]; exact hnomem)
    constructor
    · rw [hbase, objAssign_fresh _ _ _ hnone]
    · simp [List.length_take, h15]
  · intro hmem
    have hsome : (List.lookup "..."
        ((fs.take 11).map (fun p => (p.1, truncate p.2 3 (0 + 1))))).isSome :=
      lookup_isSome_of_mem_keys _ _ (by rw [hkeys]; exact hmem)
    constructor
    · rw [hbase, objAssign_hit _ _ _ hsome, List.map_map]
      have hmapeq : ((fs.take 11).map
          ((fun p => if p.1 = "..." then (p.1, Json.str "truncated") else p) ∘
            (fun p => (p.1, truncate p.2 3 (0 + 1))))) =
          ((fs.take 11).map (fun p =>
            if p.1 = "..." then (p.1, Json.str "truncated")
            else (p.1, truncate p.2 3 (0 + 1)))) := by
        apply List.map_congr_left
        intro p hp
        by_cases hpk : p.1 = "..." <;> simp [hpk]
      rw [hmapeq]
    · simp [List.length_take, h15]

/-- C3 witness: the amended truncation behaviour at a concrete 15-key
mapping whose keys do not include `"..."`. -/
theorem detailed_15_key_truncation_witness :
    let fs : List (String × Json) :=
      [("a1", Json.null), ("a2", Json.null), ("a3", Json.null), ("a4", Json.null),
       ("a5", Json.null), ("a6", Json.null), ("a7", Json.null), ("a8", Json.null),
       ("a9", Json.null), ("a10", Json.null), ("a11", Json.null), ("a12", Json.null),
       ("a13", Json.null), ("a14", Json.null), ("a15", Json.null)]
    processData FileMode.detailed (Json.obj fs) =
      some (Json.obj ((fs.take 11).map (fun p => (p.1, truncate p.2 3 (0 + 1))) ++
        [("...", Json.str "truncated")])) ∧
    ((fs.take 11).map (fun p => (p.1, truncate p.2 3 (0 + 1))) ++
        [("...", Json.str "truncated")]).length = 12 :=
  (detailed_15_key_truncation
    [("a1", Json.null), ("a2", Json.null), ("a3", Json.null), ("a4", Json.null),
     ("a5", Json.null), ("a6", Json.null), ("a7", Json.null), ("a8", Json.null),
     ("a9", Json.null), ("a10", Json.null), ("a11", Json.null), ("a12", Json.null),
     ("a13", Json.null), ("a14", Json.null), ("a15", Json.null)]
    rfl (by decide)).1 (by decide)

/-- C4 counterexample: an accepted `minimal`-mode write whose payload is the
number 5 — a payload containing none of the allow-list keys — still persists
a `data` field (carrying `5` unchanged), because `processData` only shapes
object payloads and passes every other payload through. -/
theorem minimal_scalar_payload_persists_data :
    let s0 := initWriter FileMode.minimal 100 true "T0"
    let s1 := writeEntry serializeEntry "T1" "performance" "m" (some (Json.num 5)) s0
    s1.buffer = [⟨"T1", "performance", "m", some (Json.num 5), none⟩] ∧
    serializeEntry ⟨"T1", "performance", "m", some (Json.num 5), none⟩ =
      "\x7b\"timestamp\":\"T1\",\"namespace\":\"performance\",\"message\":\"m\",\"data\":5\x7d" :=
  ⟨rfl, rfl⟩

theorem essential_keys (fields : List (String × Json)) :
    (essentialOf fields).map Prod.fst = allowList.filter (fun k => hasKey fields k) := by
  unfold essentialOf hasKey
  generalize allowList = l
  induction l with
  | nil => rfl
  | cons k ks ih => cases h : List.lookup k fields <;> simp [h, ih]

theorem essential_mem (fields : List (String × Json)) :
    ∀ k v, (k, v) ∈ essentialOf fields →
      k ∈ allowList ∧ List.lookup k fields = some v := by
  intro k v hmem
  unfold essentialOf at hmem
  obtain ⟨a, ha, hfa⟩ := List.mem_filterMap.mp hmem
  obtain ⟨w, hw, heq⟩ := Option.map_eq_some'.mp hfa
  obtain ⟨rfl, rfl⟩ := Prod.mk.injEq .. ▸ heq
  exact ⟨ha, hw⟩

/-- C4 (amended): for every accepted `minimal`-mode write whose payload is
a mapping, the shaping transform builds a new mapping from exactly the
allow-list keys present in the input (with their input values), and when
none of the allow-list keys are present the shaped result is absent, so the
entry is persisted without a `data` field; an array payload (also an
`'object'` to `typeof`, but carrying none of the allow-list keys as
properties) likewise yields an absent result and no `data` field; all other
non-mapping payloads are passed through unchanged. -/
theorem minimal_shape_allowlist (fs : List (String × Json)) :
    (processData FileMode.minimal (Json.obj fs) = none ↔ essentialOf fs = []) ∧
    ((essentialOf fs).length > 0 →
        processData FileMode.minimal (Json.obj fs) = some (Json.obj (essentialOf fs))) ∧
    ((essentialOf fs).map Prod.fst = allowList.filter (fun k => hasKey fs k)) ∧
    (∀ k v, (k, v) ∈ essentialOf fs → k ∈ allowList ∧ List.lookup k fs = some v) ∧
    (∀ xs : List Json, processData FileMode.minimal (Json.arr xs) = none) ∧
    (∀ v : Json, (∀ gs, v ≠ Json.obj gs) → (∀ xs, v ≠ Json.arr xs) →
        processData FileMode.minimal v = some v) := by
  refine ⟨?_, ?_, essential_keys fs, essential_mem fs, fun xs => rfl, ?_⟩
  · simp only [processData]
    constructor
    · intro h
      by_cases hl : (essentialOf fs).length > 0
      · simp [hl] at h
      · exact List.length_eq_zero.mp (by omega)
    · intro h; simp [h]
  · intro h; simp [processData, h]
  · intro v hv hva
    cases v with
    | obj gs => exact absurd rfl (hv gs)
    | arr xs => exact absurd rfl (hva xs)
    | null => rfl
    | bool b => rfl
    | num n => rfl
    | str s => rfl

/-- C4 witness: the amended shaping at a concrete mapping payload carrying
one allow-list key and one other key. -/
theorem minimal_shape_allowlist_witness :
    processData FileMode.minimal (Json.obj [("duration", Json.num 3), ("x", Json.null)]) =
      some (Json.obj [("duration", Json.num 3)]) :=
  (minimal_shape_allowlist [("duration", Json.num 3), ("x", Json.null)]).2.1 (by decide)

theorem lookup_addDur_self (ops : List (String × List Json)) (m : String) (d : Option Json) :
    List.lookup m (addDur ops m d) = some (((List.lookup m ops).getD []) ++ d.toList) := by
  induction ops with
  | nil => simp [addDur, lookup_cons]
  | cons p rest ih =>
      obtain ⟨k, vs⟩ := p
      by_cases hk : k = m
      · subst hk
        simp [addDur, lookup_cons]
      · have hne : (m == k) = false := by simp [Ne.symm hk]
        simp [addDur, hk, lookup_cons, hne, ih]

theorem lookup_addDur_ne (ops : List (String × List Json)) (m m' : String) (d : Option Json)
    (h : m' ≠ m) : List.lookup m' (addDur ops m d) = List.lookup m' ops := by
  induction ops with
  | nil => simp [addDur, lookup_cons, h]
  | cons p rest ih =>
      obtain ⟨k, vs⟩ := p
      by_cases hk : k = m
      · subst hk
        simp [addDur, lookup_cons, h, ih]
      · simp [addDur, hk, lookup_cons, ih]

theorem durOf_toList_filterMap (e : Json) (l : List Json) :
    (durOf e).toList ++ l.filterMap durOf = (e :: l).filterMap durOf := by
  cases h : durOf e <;> simp [List.filterMap_cons, h]

theorem lookup_foldl_addDur (m : String) (L : List Json) :
    ∀ ops : List (String × List Json),
      List.lookup m (L.foldl (fun o log => addDur o (opName log) (durOf log)) ops) =
        match List.lookup m ops with
        | some ds => some (ds ++ (L.filter (fun e => opName e == m)).filterMap durOf)
        | none =>
            if L.any (fun e => opName e == m) then
              some ((L.filter (fun e => opName e == m)).filterMap durOf)
            else none := by
  induction L with
  | nil => intro ops; cases h : List.lookup m ops <;> simp [h]
  | cons e L ih =>
      intro ops
      simp only [List.foldl_cons]
      rw [ih]
      by_cases he : opName e = m
      · have hbe : (opName e == m) = true := by simp [he]
        have hfil : List.filter (fun x => opName x == m) (e :: L) =
            e :: List.filter (fun x => opName x == m) L := by
          simp [List.filter_cons, hbe]
        have hany : (e :: L).any (fun x => opName x == m) = true := by
          simp [List.any_cons, hbe]
        rw [he, lookup_addDur_self]
        cases h : List.lookup m ops with
        | none =>
            simp only [h, Option.getD_none, List.nil_append, hany, if_true, hfil]
            rw [← durOf_toList_filterMap]
        | some ds =>
            simp only [h, Option.getD_some, hfil]
            rw [← durOf_toList_filterMap, List.append_assoc]
      · have hbe : (opName e == m) = false := by simp [he]
        have hne : m ≠ opName e := fun hh => he hh.symm
        have hfil : List.filter (fun x => opName x == m) (e :: L) =
            List.filter (fun x => opName x == m) L := by
          simp [List.filter_cons, hbe]
        have hany : (e :: L).any (fun x => opName x == m) = L.any (fun x => opName x == m) := by
          simp [List.any_cons, hbe]
        rw [lookup_addDur_ne _ _ _ _ hne]
        cases h : List.lookup m ops <;> simp [h, hfil, hany]

/-- C5 counterexample: two `perf`-matching entries share the message
`"op"`, one carrying `duration: 10` and one (namespace `performance`, no
data) carrying no numeric field.  The group has 2 matching entries, but its
reported `Count` — the length of the pushed-durations list — is 1: the
entry without a numeric field did not contribute to the group's reported
count, contradicting the claim. -/
theorem perf_count_excludes_nonnumeric :
    let logs := [Json.obj [("namespace", Json.str "performance"), ("message", Json.str "op"),
        ("data", Json.obj [("duration", Json.num 10)])],
      Json.obj [("namespace", Json.str "performance"), ("message", Json.str "op")]]
    perfReport logs = [("op", [Json.num 10])] ∧
    ((perfView logs).filter (fun e => opName e == "op")).length = 2 :=
  ⟨rfl, rfl⟩

/-- C5 (amended): in the `perf` grouping, a matching entry without a truthy
numeric duration/elapsed/timing value contributes to the group's existence
and to the raw match count, but neither to the group's reported count nor
to its avg/min/max — each group's pushed list holds exactly the numeric
values of its matching entries, and the reported count is that list's
length; a group whose list is empty is omitted from the per-operation
report (`perfReport` keeps only non-empty lists) while its entries remain
in the raw match set. -/
theorem perf_group_content (logs : List Json) (m : String) :
    List.lookup m (perfGroups logs) =
      (if (perfView logs).any (fun e => opName e == m) then
        some (((perfView logs).filter (fun e => opName e == m)).filterMap durOf)
      else none) := by
  unfold perfGroups
  rw [lookup_foldl_addDur]
  rfl

theorem readStep_acc (acc : List Json) (l : String) :
    readStep acc l = acc ++ readStep [] l := by
  unfold readStep
  by_cases hb : headIsBrace l
  · cases hj : jsonParse l <;> simp [hb, hj]
  · simp [hb]

theorem readLogLines_acc (lines : List String) :
    ∀ acc : List Json, lines.foldl readStep acc = acc ++ readLogLines lines := by
  induction lines with
  | nil => intro acc; simp [readLogLines]
  | cons l ls ih =>
      intro acc
      simp only [readLogLines, List.foldl_cons]
      rw [ih, ih (readStep [] l), readStep_acc, List.append_assoc]

/-- C7 counterexample: the line `" {}"` — whose first non-whitespace
character is `{` and which `JSON.parse` accepts — is not treated as a
candidate entry by the reader, because the code tests `line.startsWith('{')`
on the raw first character, not the first non-whitespace character. -/
theorem reader_skips_leading_whitespace_line :
    readLogLines [" \x7b\x7d"] = [] ∧
    firstNonWsChar " \x7b\x7d" = some '\x7b' ∧
    jsonParse " \x7b\x7d" = some (Json.obj []) :=
  ⟨rfl, rfl, rfl⟩

/-- C7 (amended): a line is a candidate entry exactly when its first
character is `{`; candidate lines that fail to parse are silently skipped
(markers and corrupted lines ignored, not fatal), and the parsed output
preserves file order: reading distributes over concatenation of line
sequences, and a single line contributes precisely its parse when it is a
candidate and nothing otherwise. -/
theorem reader_candidate_and_order :
    (∀ l1 l2 : List String, readLogLines (l1 ++ l2) = readLogLines l1 ++ readLogLines l2) ∧
    (∀ l : String, readLogLines [l] =
        if headIsBrace l then (jsonParse l).toList else []) := by
  constructor
  · intro l1 l2
    show (l1 ++ l2).foldl readStep [] = readLogLines l1 ++ readLogLines l2
    rw [List.foldl_append, readLogLines_acc]
    rfl
  · intro l
    show List.foldl readStep [] [l] = _
    simp only [List.foldl_cons, List.foldl_nil]
    unfold readStep
    by_cases hb : headIsBrace l
    · cases hj : jsonParse l <;> simp [hb, hj]
    · simp [hb]

theorem flush_closed (serialize : DebugFileEntry → String) (s : WriterState)
    (h : s.fileStream = false) : flush serialize s = s :=
  flush_eq_self serialize s (Or.inr h)

theorem step_degraded (s : WriterState) (op : WriterOp) (h : s.fileStream = false) :
    (step s op).fileStream = false ∧ (step s op).mode = s.mode ∧
      ∃ t, (step s op).buffer = s.buffer ++ t := by
  cases op with
  | write ts nsp message data =>
      simp only [step, writeEntry]
      by_cases hw : shouldWrite s.mode nsp data
      · simp only [hw, Bool.not_true, Bool.false_eq_true, if_false]
        by_cases hlen : s.buffer.length + 1 ≥ s.maxBufferSize
        · rw [if_pos (by simpa using hlen), flush_closed serializeEntry]
          · exact ⟨h, rfl, _, rfl⟩
          · exact h
        · rw [if_neg (by simpa using hlen)]
          exact ⟨h, rfl, _, rfl⟩
      · simp only [hw, Bool.not_false, if_true]
        exact ⟨h, trivial, [], by simp⟩
  | flushOp =>
      have hfl : flush serializeEntry s = s := flush_closed serializeEntry s h
      show (flush serializeEntry s).fileStream = false ∧ (flush serializeEntry s).mode = s.mode ∧
        ∃ t, (flush serializeEntry s).buffer = s.buffer ++ t
      rw [hfl]
      exact ⟨h, rfl, [], by simp⟩
  | setReq r =>
      exact ⟨h, rfl, [], by simp [step, setRequestId]⟩

theorem run_degraded_mono (ops : List WriterOp) :
    ∀ s : WriterState, s.fileStream = false →
      (run s ops).fileStream = false ∧ s.buffer.length ≤ (run s ops).buffer.length := by
  induction ops with
  | nil => intro s h; exact ⟨h, Nat.le_refl _⟩
  | cons op ops ih =>
      intro s h
      obtain ⟨h1, _, t, ht⟩ := step_degraded s op h
      obtain ⟨h2, h3⟩ := ih (step s op) h1
      have hrun : run s (op :: ops) = run (step s op) ops := by
        simp [run, List.foldl_cons]
      rw [hrun]
      refine ⟨h2, Nat.le_trans ?_ h3⟩
      rw [ht]
      simp

theorem writeEntry_degraded_len (s : WriterState) (ts nsp message : String)
    (data : Option Json) (h : s.fileStream = false)
    (hw : shouldWrite s.mode nsp data = true) :
    (writeEntry serializeEntry ts nsp message data s).buffer.length = s.buffer.length + 1 ∧
    (writeEntry serializeEntry ts nsp message data s).fileStream = false ∧
    (writeEntry serializeEntry ts nsp message data s).mode = s.mode := by
  simp only [writeEntry, hw, Bool.not_true, Bool.false_eq_true, if_false]
  by_cases hlen : s.buffer.length + 1 ≥ s.maxBufferSize
  · rw [if_pos (by simpa using hlen), flush_closed serializeEntry]
    · exact ⟨by simp, h, rfl⟩
    · exact h
  · rw [if_neg (by simpa using hlen)]
    exact ⟨by simp, h, rfl⟩

theorem run_degraded_replicate (n : Nat) :
    ∀ s : WriterState, s.fileStream = false → s.mode = FileMode.minimal →
      (run s (List.replicate n (WriterOp.write "T" "performance" "m" none))).buffer.length =
        s.buffer.length + n := by
  induction n with
  | zero => intro s h hm; simp [run]
  | succ n ih =>
      intro s h hm
      have hw : shouldWrite s.mode "performance" none = true := by rw [hm]; rfl
      obtain ⟨hl, hf, hmode⟩ := writeEntry_degraded_len s "T" "performance" "m" none h hw
      have hrun : run s (List.replicate (n + 1) (WriterOp.write "T" "performance" "m" none)) =
          run (writeEntry serializeEntry "T" "performance" "m" none s)
            (List.replicate n (WriterOp.write "T" "performance" "m" none)) := by
        rw [List.replicate_succ]
        simp only [run, List.foldl_cons]
        rfl
      rw [hrun, ih _ hf (by rw [hmode, hm]), hl]
      omega

/-- C10: when initialization failed (the stream is `null`), no operation
ever removes entries from the buffer: every step keeps the stream closed
and only appends to the buffer, the buffer length is monotone over any
operation sequence, and `n` accepted writes leave `n` entries buffered
whatever the capacity threshold — the capacity-triggered flush (and the
periodic/manual flush) return early without clearing, so the buffer is no
longer bounded by the threshold. -/
theorem degraded_stream_buffer_grows :
    (∀ (s : WriterState) (op : WriterOp), s.fileStream = false →
        (step s op).fileStream = false ∧ ∃ t, (step s op).buffer = s.buffer ++ t) ∧
    (∀ (s : WriterState) (ops : List WriterOp), s.fileStream = false →
        s.buffer.length ≤ (run s ops).buffer.length) ∧
    (∀ (n cap : Nat) (ts : String),
        (run (initWriter FileMode.minimal cap false ts)
          (List.replicate n (WriterOp.write "T" "performance" "m" none))).buffer.length = n) :=
  ⟨fun s op h => ⟨(step_degraded s op h).1, (step_degraded s op h).2.2⟩,
   fun s ops h => (run_degraded_mono ops s h).2,
   fun n cap ts => by
     simpa [initWriter] using
       run_degraded_replicate n (initWriter FileMode.minimal cap false ts) rfl rfl⟩

/-- C10 witness: with a failed-initialization writer of capacity 2, a flush
leaves the stream closed and the buffer untouched, and 5 accepted writes
leave 5 entries buffered — beyond the capacity threshold. -/
theorem degraded_stream_buffer_grows_witness :
    ((step (initWriter FileMode.minimal 2 false "T0") WriterOp.flushOp).fileStream = false ∧
      ∃ t, (step (initWriter FileMode.minimal 2 false "T0") WriterOp.flushOp).buffer =
        (initWriter FileMode.minimal 2 false "T0").buffer ++ t) ∧
    (run (initWriter FileMode.minimal 2 false "T0")
        (List.replicate 5 (WriterOp.write "T" "performance" "m" none))).buffer.length = 5 :=
  ⟨degraded_stream_buffer_grows.1 _ _ rfl, degraded_stream_buffer_grows.2.2 5 2 "T0"⟩

/-- C9 witness: the contract applied to a concrete one-entry state with an
open stream: the entry is appended and the buffer cleared. -/
theorem flush_contract_witness :
    flush serializeEntry
        { mode := FileMode.minimal, maxBufferSize := 100,
          buffer := [⟨"T1", "performance", "op", none, none⟩], fileStream := true,
          file := [], currentRequestId := none } =
      { mode := FileMode.minimal, maxBufferSize := 100, buffer := [],
        fileStream := true,
        file := [serializeEntry ⟨"T1", "performance", "op", none, none⟩],
        currentRequestId := none } :=
  flush_contract.2.1 _ (by simp) rfl



theorem charOfNat_toNat (c : Char) (h : c.toNat < 55296) : Char.ofNat c.toNat = c := by
  have hv : c.toNat.isValidChar := Or.inl h
  unfold Char.ofNat
  rw [dif_pos hv]
  apply Char.ext
  apply UInt32.ext
  simp [Char.ofNatAux, Char.toNat, UInt32.toNat]

theorem digit_facts (d : Nat) (h : d < 10) :
    isDigitChar (digitChar d) = true ∧ dval (digitChar d) = d ∧
      isWsChar (digitChar d) = false ∧ digitChar d ≠ 'n' ∧ digitChar d ≠ 't' ∧
      digitChar d ≠ 'f' ∧ digitChar d ≠ '"' ∧ digitChar d ≠ '-' ∧
      digitChar d ≠ '[' ∧ digitChar d ≠ '\x7b' ∧ digitChar d ≠ ']' ∧
      digitChar d ≠ ',' ∧ digitChar d ≠ ':' := by
  interval_cases d <;> exact ⟨rfl, rfl, rfl, by decide, by decide, by decide, by decide,
    by decide, by decide, by decide, by decide, by decide, by decide⟩

theorem hex_facts (d : Nat) (h : d < 16) : hval (hexChar d) = some d := by
  interval_cases d <;> rfl

theorem printNatAcc_acc (fuel : Nat) :
    ∀ (n : Nat) (acc : List Char), printNatAcc fuel n acc = printNatAcc fuel n [] ++ acc := by
  induction fuel with
  | zero => intro n acc; simp [printNatAcc]
  | succ fuel ih =>
      intro n acc
      by_cases h : n < 10
      · simp [printNatAcc, h]
      · simp only [printNatAcc, if_neg h]
        rw [ih (n / 10) [digitChar (n % 10)], ih (n / 10) (digitChar (n % 10) :: acc)]
        simp

theorem printNatAcc_extra : ∀ (f1 f2 n : Nat), n < f1 → n < f2 →
    printNatAcc f1 n [] = printNatAcc f2 n [] := by
  intro f1
  induction f1 with
  | zero => intro f2 n h1; omega
  | succ f1 ih =>
      intro f2 n h1 h2
      cases f2 with
      | zero => omega
      | succ f2 =>
          by_cases h : n < 10
          · simp [printNatAcc, h]
          · simp only [printNatAcc, if_neg h]
            rw [printNatAcc_acc f1, printNatAcc_acc f2, ih f2 (n / 10) (by omega) (by omega)]

theorem printNat_shape (n : Nat) :
    printNat n = if n < 10 then [digitChar n] else printNat (n / 10) ++ [digitChar (n % 10)] := by
  by_cases h : n < 10
  · simp [printNat, printNatAcc, h]
  · rw [if_neg h]
    show printNatAcc (n + 1) n [] = _
    rw [show printNatAcc (n + 1) n [] = printNatAcc n (n / 10) [digitChar (n % 10)] from by
      simp [printNatAcc, h]]
    rw [printNatAcc_acc n, printNatAcc_extra n (n / 10 + 1) (n / 10) (by omega) (by omega)]
    rfl

theorem printNat_head (n : Nat) : ∃ d t, printNat n = digitChar d :: t ∧ d < 10 := by
  induction n using Nat.strong_induction_on with
  | _ n ih =>
      rw [printNat_shape n]
      by_cases h : n < 10
      · exact ⟨n, [], by simp [h], h⟩
      · obtain ⟨d, t, hdt, hd⟩ := ih (n / 10) (by omega)
        exact ⟨d, t ++ [digitChar (n % 10)], by simp [if_neg h, hdt], hd⟩

theorem parseDigitsAcc_printNat (n : Nat) :
    ∀ (a : Nat) (rest : List Char),
      parseDigitsAcc a (printNat n ++ rest) =
        parseDigitsAcc (a * 10 ^ (printNat n).length + n) rest := by
  induction n using Nat.strong_induction_on with
  | _ n ih =>
      intro a rest
      rw [printNat_shape n]
      by_cases h : n < 10
      · rw [if_pos h]
        obtain ⟨h1, h2, -⟩ := digit_facts n h
        simp only [List.cons_append, List.nil_append, parseDigitsAcc, h1, if_true, h2,
          List.length_singleton]
        rw [pow_one, Nat.mul_comm a 10]
        rfl
      · rw [if_neg h]
        have hm : n % 10 < 10 := by omega
        obtain ⟨h1, h2, -⟩ := digit_facts (n % 10) hm
        rw [List.append_assoc, ih (n / 10) (by omega) a]
        simp only [List.cons_append, List.nil_append, parseDigitsAcc, h1, if_true, h2]
        rw [List.length_append, List.length_singleton]
        have : 10 * (a * 10 ^ (printNat (n / 10)).length + n / 10) + n % 10 =
            a * 10 ^ ((printNat (n / 10)).length + 1) + n := by
          rw [pow_succ]
          have := Nat.div_add_mod n 10
          ring_nf
          omega
        rw [this]
        rfl

theorem parseDigitsAcc_stop (a : Nat) (rest : List Char) (h : noDigitHead rest = true) :
    parseDigitsAcc a rest = (a, rest) := by
  cases rest with
  | nil => rfl
  | cons c cs =>
      simp only [noDigitHead, Bool.not_eq_true'] at h
      simp [parseDigitsAcc, h]


theorem psb_close (X : List Char) : parseStringBody ('"' :: X) = some ([], X) := by
  rw [parseStringBody.eq_def]; simp

theorem psb_q (X : List Char) : parseStringBody ('\\' :: '"' :: X) =
    (parseStringBody X).map (fun p => ('"' :: p.1, p.2)) := by
  rw [parseStringBody.eq_def]; simp

theorem psb_bs (X : List Char) : parseStringBody ('\\' :: '\\' :: X) =
    (parseStringBody X).map (fun p => ('\\' :: p.1, p.2)) := by
  rw [parseStringBody.eq_def]; simp

theorem psb_b (X : List Char) : parseStringBody ('\\' :: 'b' :: X) =
    (parseStringBody X).map (fun p => ('\x08' :: p.1, p.2)) := by
  rw [parseStringBody.eq_def]; simp

theorem psb_t (X : List Char) : parseStringBody ('\\' :: 't' :: X) =
    (parseStringBody X).map (fun p => ('\x09' :: p.1, p.2)) := by
  rw [parseStringBody.eq_def]; simp

theorem psb_n (X : List Char) : parseStringBody ('\\' :: 'n' :: X) =
    (parseStringBody X).map (fun p => ('\x0a' :: p.1, p.2)) := by
  rw [parseStringBody.eq_def]; simp

theorem psb_f (X : List Char) : parseStringBody ('\\' :: 'f' :: X) =
    (parseStringBody X).map (fun p => ('\x0c' :: p.1, p.2)) := by
  rw [parseStringBody.eq_def]; simp

theorem psb_r (X : List Char) : parseStringBody ('\\' :: 'r' :: X) =
    (parseStringBody X).map (fun p => ('\x0d' :: p.1, p.2)) := by
  rw [parseStringBody.eq_def]; simp

theorem psb_u (X : List Char) (hi lo : Char) (a b : Nat)
    (ha : hval hi = some a) (hb : hval lo = some b) :
    parseStringBody ('\\' :: 'u' :: '0' :: '0' :: hi :: lo :: X) =
    (parseStringBody X).map
      (fun p => (Char.ofNat (((0 * 16 + 0) * 16 + a) * 16 + b) :: p.1, p.2)) := by
  rw [parseStringBody.eq_def]
  simp [ha, hb, show hval '0' = some 0 from rfl]

theorem psb_lit (X : List Char) (c : Char) (h1 : ¬c = '"') (h2 : ¬c = '\\') :
    parseStringBody (c :: X) = (parseStringBody X).map (fun p => (c :: p.1, p.2)) := by
  rw [parseStringBody.eq_def]
  simp only [if_neg h1, if_neg h2]

theorem parseStringBody_escape :
    ∀ (cs : List Char) (rest : List Char),
      parseStringBody ((cs.map escapeChar).flatten ++ '"' :: rest) = some (cs, rest) := by
  intro cs
  induction cs with
  | nil =>
      intro rest
      simp only [List.map_nil, List.flatten_nil, List.nil_append]
      exact psb_close rest
  | cons c cs ih =>
      intro rest
      simp only [List.map_cons, List.flatten_cons, List.append_assoc]
      by_cases h1 : c = '"'
      · subst h1
        rw [show escapeChar '"' = ['\\', '"'] from rfl]
        simp only [List.cons_append, List.nil_append]
        rw [psb_q, ih]
        rfl
      · by_cases h2 : c = '\\'
        · subst h2
          rw [show escapeChar '\\' = ['\\', '\\'] from rfl]
          simp only [List.cons_append, List.nil_append]
          rw [psb_bs, ih]
          rfl
        · by_cases h3 : c = '\x08'
          · subst h3
            rw [show escapeChar '\x08' = ['\\', 'b'] from rfl]
            simp only [List.cons_append, List.nil_append]
            rw [psb_b, ih]
            rfl
          · by_cases h4 : c = '\x09'
            · subst h4
              rw [show escapeChar '\x09' = ['\\', 't'] from rfl]
              simp only [List.cons_append, List.nil_append]
              rw [psb_t, ih]
              rfl
            · by_cases h5 : c = '\x0a'
              · subst h5
                rw [show escapeChar '\x0a' = ['\\', 'n'] from rfl]
                simp only [List.cons_append, List.nil_append]
                rw [psb_n, ih]
                rfl
              · by_cases h6 : c = '\x0c'
                · subst h6
                  rw [show escapeChar '\x0c' = ['\\', 'f'] from rfl]
                  simp only [List.cons_append, List.nil_append]
                  rw [psb_f, ih]
                  rfl
                · by_cases h7 : c = '\x0d'
                  · subst h7
                    rw [show escapeChar '\x0d' = ['\\', 'r'] from rfl]
                    simp only [List.cons_append, List.nil_append]
                    rw [psb_r, ih]
                    rfl
                  · by_cases h8 : c.toNat < 32
                    · rw [show escapeChar c = ['\\', 'u', '0', '0',
                          hexChar (c.toNat / 16), hexChar (c.toNat % 16)] from by
                        unfold escapeChar
                        rw [if_neg h1, if_neg h2, if_neg h3, if_neg h4, if_neg h5, if_neg h6,
                          if_neg h7, if_pos h8]]
                      simp only [List.cons_append, List.nil_append]
                      rw [psb_u _ _ _ _ _ (hex_facts (c.toNat / 16) (by omega))
                        (hex_facts (c.toNat % 16) (by omega)), ih]
                      rw [show ((0 * 16 + 0) * 16 + c.toNat / 16) * 16 + c.toNat % 16 =
                          c.toNat from by omega]
                      rw [charOfNat_toNat c (by omega)]
                      rfl
                    · rw [show escapeChar c = [c] from by
                        unfold escapeChar
                        rw [if_neg h1, if_neg h2, if_neg h3, if_neg h4, if_neg h5, if_neg h6,
                          if_neg h7, if_neg h8]]
                      simp only [List.cons_append, List.nil_append]
                      rw [psb_lit _ _ h1 h2, ih]
                      rfl

theorem skipWs_cons (c : Char) (X : List Char) (h : isWsChar c = false) :
    skipWs (c :: X) = c :: X := by
  rw [skipWs.eq_def]; simp [h]

theorem pv_null (f : Nat) (X : List Char) :
    parseValue (f + 1) ('n' :: X) =
      (expectChars ['u', 'l', 'l'] X).map (fun r => (Json.null, r)) := by
  have hsw := skipWs_cons 'n' X (by decide)
  rw [parseValue.eq_def]
  simp [hsw]

theorem pv_true (f : Nat) (X : List Char) :
    parseValue (f + 1) ('t' :: X) =
      (expectChars ['r', 'u', 'e'] X).map (fun r => (Json.bool true, r)) := by
  have hsw := skipWs_cons 't' X (by decide)
  rw [parseValue.eq_def]
  simp [hsw]

theorem pv_false (f : Nat) (X : List Char) :
    parseValue (f + 1) ('f' :: X) =
      (expectChars ['a', 'l', 's', 'e'] X).map (fun r => (Json.bool false, r)) := by
  have hsw := skipWs_cons 'f' X (by decide)
  rw [parseValue.eq_def]
  simp [hsw]

theorem pv_str (f : Nat) (X : List Char) :
    parseValue (f + 1) ('"' :: X) =
      (parseStringBody X).map (fun p => (Json.str (String.mk p.1), p.2)) := by
  have hsw := skipWs_cons '"' X (by decide)
  rw [parseValue.eq_def]
  simp [hsw]

theorem pv_arr (f : Nat) (X : List Char) :
    parseValue (f + 1) ('[' :: X) = parseItems f X := by
  have hsw := skipWs_cons '[' X (by decide)
  rw [parseValue.eq_def]
  simp [hsw, show isDigitChar '[' = false from rfl]

theorem pv_obj (f : Nat) (X : List Char) :
    parseValue (f + 1) ('\x7b' :: X) = parseFields f X := by
  have hsw := skipWs_cons '\x7b' X (by decide)
  rw [parseValue.eq_def]
  simp [hsw, show isDigitChar '\x7b' = false from rfl]

theorem pv_digit (f : Nat) (X : List Char) (d : Nat) (hd : d < 10) :
    parseValue (f + 1) (digitChar d :: X) =
      some (Json.num ((parseDigitsAcc 0 (digitChar d :: X)).1 : Int),
        (parseDigitsAcc 0 (digitChar d :: X)).2) := by
  obtain ⟨hdig, hdv, hws, hn, ht, hf, hq, hm, hlb, hob, hrb, hcm, hcl⟩ := digit_facts d hd
  have hsw := skipWs_cons (digitChar d) X hws
  rw [parseValue.eq_def]
  simp [hsw, hn, ht, hf, hq, hm, hdig]

theorem pv_minus (f : Nat) (X : List Char) (d : Nat) (hd : d < 10) (Y : List Char)
    (hX : X = digitChar d :: Y) :
    parseValue (f + 1) ('-' :: X) =
      some (Json.num (-((parseDigitsAcc 0 X).1 : Int)), (parseDigitsAcc 0 X).2) := by
  obtain ⟨hdig, -⟩ := digit_facts d hd
  have hsw := skipWs_cons '-' X (by decide)
  rw [parseValue.eq_def]
  subst hX
  simp [skipWs_cons '-' (digitChar d :: Y) (by decide), hdig]

theorem pi_close (f : Nat) (X : List Char) :
    parseItems (f + 1) (']' :: X) = some (Json.arr [], X) := by
  have hsw := skipWs_cons ']' X (by decide)
  rw [parseItems.eq_def]
  simp [hsw]

theorem pi_cons (f : Nat) (c : Char) (X : List Char) (hws : isWsChar c = false)
    (hne : c ≠ ']') :
    parseItems (f + 1) (c :: X) =
      (parseValue f (c :: X)).bind fun vr =>
        (parseItemsTail f vr.2).map fun lr => (Json.arr (vr.1 :: lr.1), lr.2) := by
  have hsw := skipWs_cons c X hws
  rw [parseItems.eq_def]
  simp [hsw, hne]

theorem pit_close (f : Nat) (X : List Char) :
    parseItemsTail (f + 1) (']' :: X) = some ([], X) := by
  have hsw := skipWs_cons ']' X (by decide)
  rw [parseItemsTail.eq_def]
  simp [hsw]

theorem pit_comma (f : Nat) (X : List Char) :
    parseItemsTail (f + 1) (',' :: X) =
      (parseValue f X).bind fun vr =>
        (parseItemsTail f vr.2).map fun lr => (vr.1 :: lr.1, lr.2) := by
  have hsw := skipWs_cons ',' X (by decide)
  rw [parseItemsTail.eq_def]
  simp [hsw]

theorem pf_close (f : Nat) (X : List Char) :
    parseFields (f + 1) ('\x7d' :: X) = some (Json.obj [], X) := by
  have hsw := skipWs_cons '\x7d' X (by decide)
  rw [parseFields.eq_def]
  simp [hsw]

theorem pf_key (f : Nat) (X : List Char) :
    parseFields (f + 1) ('"' :: X) =
      (parseStringBody X).bind fun kp =>
        match skipWs kp.2 with
        | c2 :: cs2 =>
            if c2 = ':' then
              (parseValue f cs2).bind fun vr =>
                (parseFieldsTail f vr.2).map fun fr =>
                  (Json.obj ((String.mk kp.1, vr.1) :: fr.1), fr.2)
            else none
        | [] => none := by
  have hsw := skipWs_cons '"' X (by decide)
  rw [parseFields.eq_def]
  simp [hsw]

theorem pft_close (f : Nat) (X : List Char) :
    parseFieldsTail (f + 1) ('\x7d' :: X) = some ([], X) := by
  have hsw := skipWs_cons '\x7d' X (by decide)
  rw [parseFieldsTail.eq_def]
  simp [hsw]

theorem pft_comma (f : Nat) (X : List Char) :
    parseFieldsTail (f + 1) (',' :: X) =
      (match skipWs X with
       | c2 :: cs2 =>
          if c2 = '"' then
            (parseStringBody cs2).bind fun kp =>
              match skipWs kp.2 with
              | c3 :: cs3 =>
                  if c3 = ':' then
                    (parseValue f cs3).bind fun vr =>
                      (parseFieldsTail f vr.2).map fun fr =>
                        ((String.mk kp.1, vr.1) :: fr.1, fr.2)
                  else none
              | [] => none
          else none
       | [] => none) := by
  have hsw := skipWs_cons ',' X (by decide)
  rw [parseFieldsTail.eq_def]
  simp [hsw]

theorem pft_comma_key (f : Nat) (X : List Char) :
    parseFieldsTail (f + 1) (',' :: '"' :: X) =
      (parseStringBody X).bind fun kp =>
        match skipWs kp.2 with
        | c3 :: cs3 =>
            if c3 = ':' then
              (parseValue f cs3).bind fun vr =>
                (parseFieldsTail f vr.2).map fun fr =>
                  ((String.mk kp.1, vr.1) :: fr.1, fr.2)
            else none
        | [] => none := by
  have hsw := skipWs_cons ',' ('"' :: X) (by decide)
  have hsw2 := skipWs_cons '"' X (by decide)
  rw [parseFieldsTail.eq_def]
  simp [hsw, hsw2]

theorem printJ_head (v : Json) :
    ∃ c t, printJ v = c :: t ∧ isWsChar c = false ∧ c ≠ ']' := by
  cases v with
  | null => exact ⟨'n', _, rfl, by decide, by decide⟩
  | bool b =>
      cases b
      · exact ⟨'f', _, rfl, by decide, by decide⟩
      · exact ⟨'t', _, rfl, by decide, by decide⟩
  | num n =>
      by_cases hn : n < 0
      · exact ⟨'-', printNat n.natAbs, by simp [printJ, printInt, hn], by decide, by decide⟩
      · obtain ⟨d, t, hdt, hd⟩ := printNat_head n.natAbs
        obtain ⟨-, -, hws, -, -, -, -, -, -, -, hrb, -, -⟩ := digit_facts d hd
        exact ⟨digitChar d, t, by simp [printJ, printInt, hn, hdt], hws, hrb⟩
  | str s =>
      exact ⟨'"', (s.data.map escapeChar).flatten ++ ['"'],
        by simp [printJ, printString], by decide, by decide⟩
  | arr xs => exact ⟨'[', printItems xs, rfl, by decide, by decide⟩
  | obj fs => exact ⟨'\x7b', printFields fs, rfl, by decide, by decide⟩

theorem printJ_pos (v : Json) : 0 < (printJ v).length := by
  obtain ⟨c, t, h, -, -⟩ := printJ_head v
  simp [h]

theorem printItems_pos (xs : List Json) : 0 < (printItems xs).length := by
  cases xs with
  | nil => simp [printItems]
  | cons x xs =>
      have := printJ_pos x
      simp [printItems]
      omega

theorem printItemsTail_pos (xs : List Json) : 0 < (printItemsTail xs).length := by
  cases xs <;> simp [printItemsTail]

theorem printFields_pos (fs : List (String × Json)) : 0 < (printFields fs).length := by
  rcases fs with _ | ⟨⟨k, v⟩, fs⟩ <;> simp [printFields, printString]

theorem printFieldsTail_pos (fs : List (String × Json)) : 0 < (printFieldsTail fs).length := by
  rcases fs with _ | ⟨⟨k, v⟩, fs⟩ <;> simp [printFieldsTail]

theorem noDigitHead_IT (xs : List Json) (rest : List Char) :
    noDigitHead (printItemsTail xs ++ rest) = true := by
  cases xs <;> rfl

theorem noDigitHead_FT (fs : List (String × Json)) (rest : List Char) :
    noDigitHead (printFieldsTail fs ++ rest) = true := by
  rcases fs with _ | ⟨⟨k, v⟩, fs⟩ <;> rfl

theorem parse_printJ : ∀ fuel : Nat,
    (∀ v rest, (printJ v).length ≤ fuel → noDigitHead rest = true →
       parseValue fuel (printJ v ++ rest) = some (v, rest)) ∧
    (∀ xs rest, (printItems xs).length ≤ fuel →
       parseItems fuel (printItems xs ++ rest) = some (Json.arr xs, rest)) ∧
    (∀ xs rest, (printItemsTail xs).length ≤ fuel →
       parseItemsTail fuel (printItemsTail xs ++ rest) = some (xs, rest)) ∧
    (∀ fs rest, (printFields fs).length ≤ fuel →
       parseFields fuel (printFields fs ++ rest) = some (Json.obj fs, rest)) ∧
    (∀ fs rest, (printFieldsTail fs).length ≤ fuel →
       parseFieldsTail fuel (printFieldsTail fs ++ rest) = some (fs, rest)) := by
  intro fuel
  induction fuel with
  | zero =>
      refine ⟨fun v rest hlen _ => absurd hlen (by have := printJ_pos v; omega),
        fun xs rest hlen => absurd hlen (by have := printItems_pos xs; omega),
        fun xs rest hlen => absurd hlen (by have := printItemsTail_pos xs; omega),
        fun fs rest hlen => absurd hlen (by have := printFields_pos fs; omega),
        fun fs rest hlen => absurd hlen (by have := printFieldsTail_pos fs; omega)⟩
  | succ f ih =>
      obtain ⟨ihV, ihI, ihIT, ihF, ihFT⟩ := ih
      refine ⟨?_, ?_, ?_, ?_, ?_⟩
      · intro v rest hlen hnd
        cases v with
        | null =>
            rw [show printJ Json.null ++ rest = 'n' :: ('u' :: 'l' :: 'l' :: rest) from rfl,
              pv_null]
            rfl
        | bool b =>
            cases b
            · rw [show printJ (Json.bool false) ++ rest =
                'f' :: ('a' :: 'l' :: 's' :: 'e' :: rest) from rfl, pv_false]
              rfl
            · rw [show printJ (Json.bool true) ++ rest =
                't' :: ('r' :: 'u' :: 'e' :: rest) from rfl, pv_true]
              rfl
        | str s =>
            obtain ⟨cs⟩ := s
            rw [show printJ (Json.str (String.mk cs)) ++ rest =
              '"' :: ((cs.map escapeChar).flatten ++ '"' :: rest) from by
                simp [printJ, printString], pv_str, parseStringBody_escape]
            rfl
        | num n =>
            by_cases hn : n < 0
            · obtain ⟨d, t, hdt, hd⟩ := printNat_head n.natAbs
              rw [show printJ (Json.num n) ++ rest = '-' :: (printNat n.natAbs ++ rest) from by
                simp [printJ, printInt, hn]]
              rw [pv_minus f (printNat n.natAbs ++ rest) d hd (t ++ rest) (by rw [hdt]; rfl)]
              rw [parseDigitsAcc_printNat n.natAbs 0 rest, parseDigitsAcc_stop _ _ hnd]
              have hcast : ((0 * 10 ^ (printNat n.natAbs).length + n.natAbs : Nat) : Int) = -n := by
                rw [show 0 * 10 ^ (printNat n.natAbs).length + n.natAbs = n.natAbs from by omega]
                rw [Int.ofNat_natAbs_of_nonpos (Int.le_of_lt hn)]
              rw [hcast, neg_neg]
            · obtain ⟨d, t, hdt, hd⟩ := printNat_head n.natAbs
              rw [show printJ (Json.num n) ++ rest = printNat n.natAbs ++ rest from by
                simp [printJ, printInt, hn]]
              rw [show printNat n.natAbs ++ rest = digitChar d :: (t ++ rest) from by
                rw [hdt]; rfl]
              rw [pv_digit f (t ++ rest) d hd]
              rw [show digitChar d :: (t ++ rest) = printNat n.natAbs ++ rest from by
                rw [hdt]; rfl]
              rw [parseDigitsAcc_printNat n.natAbs 0 rest, parseDigitsAcc_stop _ _ hnd]
              have hcast : ((0 * 10 ^ (printNat n.natAbs).length + n.natAbs : Nat) : Int) = n := by
                rw [show 0 * 10 ^ (printNat n.natAbs).length + n.natAbs = n.natAbs from by omega]
                exact Int.natAbs_of_nonneg (by omega)
              rw [hcast]
        | arr xs =>
            rw [show printJ (Json.arr xs) ++ rest = '[' :: (printItems xs ++ rest) from rfl,
              pv_arr]
            exact ihI xs rest (by
              have : (printJ (Json.arr xs)).length = (printItems xs).length + 1 := by
                simp [printJ]
              omega)
        | obj fs =>
            rw [show printJ (Json.obj fs) ++ rest = '\x7b' :: (printFields fs ++ rest) from rfl,
              pv_obj]
            exact ihF fs rest (by
              have : (printJ (Json.obj fs)).length = (printFields fs).length + 1 := by
                simp [printJ]
              omega)
      · intro xs rest hlen
        cases xs with
        | nil =>
            rw [show printItems [] ++ rest = ']' :: rest from rfl]
            exact pi_close f rest
        | cons x xs =>
            obtain ⟨c, t, hct, hws, hne⟩ := printJ_head x
            have hsplit : printItems (x :: xs) ++ rest =
                printJ x ++ (printItemsTail xs ++ rest) := by
              simp [printItems, List.append_assoc]
            have hcons : printJ x ++ (printItemsTail xs ++ rest) =
                c :: (t ++ (printItemsTail xs ++ rest)) := by rw [hct]; rfl
            have hlen' : (printJ x).length + (printItemsTail xs).length ≤ f + 1 := by
              have : (printItems (x :: xs)).length =
                  (printJ x).length + (printItemsTail xs).length := by
                simp [printItems]
              omega
            rw [hsplit, hcons, pi_cons f c _ hws hne, ← hcons]
            rw [ihV x (printItemsTail xs ++ rest)
              (by have := printItemsTail_pos xs; omega) (noDigitHead_IT xs rest)]
            rw [Option.some_bind]
            rw [ihIT xs rest (by have := printJ_pos x; omega)]
            rfl
      · intro xs rest hlen
        cases xs with
        | nil =>
            rw [show printItemsTail [] ++ rest = ']' :: rest from rfl]
            exact pit_close f rest
        | cons x xs =>
            obtain ⟨c, t, hct, hws, hne⟩ := printJ_head x
            have hsplit : printItemsTail (x :: xs) ++ rest =
                ',' :: (printJ x ++ (printItemsTail xs ++ rest)) := by
              simp [printItemsTail, List.append_assoc]
            have hlen' : (printJ x).length + (printItemsTail xs).length + 1 ≤ f + 1 := by
              have : (printItemsTail (x :: xs)).length =
                  (printJ x).length + (printItemsTail xs).length + 1 := by
                simp [printItemsTail]
              omega
            rw [hsplit, pit_comma]
            rw [ihV x (printItemsTail xs ++ rest)
              (by have := printItemsTail_pos xs; omega) (noDigitHead_IT xs rest)]
            rw [Option.some_bind]
            rw [ihIT xs rest (by have := printJ_pos x; omega)]
            rfl
      · intro fs rest hlen
        rcases fs with _ | ⟨⟨k, v⟩, fs⟩
        · rw [show printFields [] ++ rest = '\x7d' :: rest from rfl]
          exact pf_close f rest
        · obtain ⟨kcs⟩ := k
          have hsplit : printFields ((String.mk kcs, v) :: fs) ++ rest =
              '"' :: ((kcs.map escapeChar).flatten ++ '"' ::
                (':' :: (printJ v ++ (printFieldsTail fs ++ rest)))) := by
            simp [printFields, printString, List.append_assoc]
          have hlen' : (printJ v).length + (printFieldsTail fs).length + 3 ≤ f + 1 := by
            have : (printFields ((String.mk kcs, v) :: fs)).length =
                (printString (String.mk kcs)).length + 1 +
                  ((printJ v).length + (printFieldsTail fs).length) := by
              simp [printFields]
              omega
            have hps : 2 ≤ (printString (String.mk kcs)).length := by
              simp [printString]
            omega
          rw [hsplit, pf_key, parseStringBody_escape, Option.some_bind]
          dsimp only
          rw [show skipWs (':' :: (printJ v ++ (printFieldsTail fs ++ rest))) =
            ':' :: (printJ v ++ (printFieldsTail fs ++ rest)) from
              skipWs_cons _ _ (by decide)]
          dsimp only
          rw [ihV v (printFieldsTail fs ++ rest) (by omega) (noDigitHead_FT fs rest)]
          rw [Option.some_bind]
          rw [ihFT fs rest (by omega)]
          rfl
      · intro fs rest hlen
        rcases fs with _ | ⟨⟨k, v⟩, fs⟩
        · rw [show printFieldsTail [] ++ rest = '\x7d' :: rest from rfl]
          exact pft_close f rest
        · obtain ⟨kcs⟩ := k
          have hsplit : printFieldsTail ((String.mk kcs, v) :: fs) ++ rest =
              ',' :: ('"' :: ((kcs.map escapeChar).flatten ++ '"' ::
                (':' :: (printJ v ++ (printFieldsTail fs ++ rest))))) := by
            simp [printFieldsTail, printString, List.append_assoc]
          have hlen' : (printJ v).length + (printFieldsTail fs).length + 4 ≤ f + 1 := by
            have : (printFieldsTail ((String.mk kcs, v) :: fs)).length =
                (printString (String.mk kcs)).length + 2 +
                  ((printJ v).length + (printFieldsTail fs).length) := by
              simp [printFieldsTail]
              omega
            have hps : 2 ≤ (printString (String.mk kcs)).length := by
              simp [printString]
            omega
          rw [hsplit, pft_comma_key, parseStringBody_escape, Option.some_bind]
          dsimp only
          rw [show skipWs (':' :: (printJ v ++ (printFieldsTail fs ++ rest))) =
            ':' :: (printJ v ++ (printFieldsTail fs ++ rest)) from
              skipWs_cons _ _ (by decide)]
          dsimp only
          rw [ihV v (printFieldsTail fs ++ rest) (by omega) (noDigitHead_FT fs rest)]
          rw [Option.some_bind]
          rw [ihFT fs rest (by omega)]
          rfl

theorem jsonParse_stringify (v : Json) : jsonParse (stringify v) = some v := by
  unfold jsonParse stringify
  have h := (parse_printJ ((printJ v).length + 1)).1 v [] (by omega) rfl
  rw [List.append_nil] at h
  rw [show (String.mk (printJ v)).data = printJ v from rfl,
    show (String.mk (printJ v)).length = (printJ v).length from rfl, h]
  rfl

theorem parseFields_shape (f : Nat) (cs : List Char) (v : Json) (rest : List Char)
    (h : parseFields f cs = some (v, rest)) : ∃ gs, v = Json.obj gs := by
  cases f with
  | zero =>
      rw [parseFields.eq_def] at h
      simp at h
  | succ f =>
      rw [parseFields.eq_def] at h
      dsimp only at h
      rcases hsw : skipWs cs with _ | ⟨c, r⟩ <;> rw [hsw] at h
      · simp at h
      · dsimp only at h
        by_cases hc : c = '\x7d'
        · rw [if_pos hc] at h
          simp only [Option.some.injEq, Prod.mk.injEq] at h
          exact ⟨[], h.1.symm⟩
        · rw [if_neg hc] at h
          by_cases hq : c = '"'
          · rw [if_pos hq] at h
            rw [Option.bind_eq_some] at h
            obtain ⟨kp, hkp, h2⟩ := h
            rcases hsw2 : skipWs kp.2 with _ | ⟨c2, cs2⟩ <;> rw [hsw2] at h2
            · simp at h2
            · dsimp only at h2
              by_cases hc2 : c2 = ':'
              · rw [if_pos hc2] at h2
                rw [Option.bind_eq_some] at h2
                obtain ⟨vr, hvr, h3⟩ := h2
                rw [Option.map_eq_some'] at h3
                obtain ⟨fr, hfr, h4⟩ := h3
                rw [Prod.mk.injEq] at h4
                exact ⟨_, h4.1.symm⟩
              · rw [if_neg hc2] at h2
                simp at h2
          · rw [if_neg hq] at h
            simp at h

theorem jsonParse_brace_obj (l : String) (hb : headIsBrace l = true) (j : Json)
    (h : jsonParse l = some j) : ∃ fs, j = Json.obj fs := by
  obtain ⟨X, hX⟩ : ∃ X, l.data = '\x7b' :: X := by
    unfold headIsBrace at hb
    rcases hl : l.data with _ | ⟨c, X⟩ <;> rw [hl] at hb
    · simp at hb
    · dsimp only at hb
      simp only [decide_eq_true_eq] at hb
      exact ⟨X, by rw [hb]⟩
  unfold jsonParse at h
  rw [show l.length = l.data.length from rfl, hX] at h
  rw [show ('\x7b' :: X).length = X.length + 1 from by simp] at h
  rw [pv_obj (X.length + 1) X] at h
  rcases hpf : parseFields (X.length + 1) X with _ | ⟨v0, r0⟩ <;> rw [hpf] at h
  · simp at h
  · dsimp only at h
    by_cases hws : skipWs r0 = []
    · rw [if_pos hws] at h
      simp only [Option.some.injEq] at h
      obtain ⟨gs, hgs⟩ := parseFields_shape _ _ _ _ hpf
      exact ⟨gs, by rw [← h, hgs]⟩
    · rw [if_neg hws] at h
      simp at h

theorem headIsBrace_stringify_obj (fs : List (String × Json)) :
    headIsBrace (stringify (Json.obj fs)) = true := by
  unfold headIsBrace stringify
  rw [show (String.mk (printJ (Json.obj fs))).data = printJ (Json.obj fs) from rfl]
  rw [printJ.eq_def]
  dsimp only
  simp

theorem readLogLines_eq_filterMap (lines : List String) :
    readLogLines lines =
      lines.filterMap (fun l => if headIsBrace l then jsonParse l else none) := by
  induction lines with
  | nil => rfl
  | cons l ls ih =>
      have h1 : readLogLines (l :: ls) = readStep [] l ++ readLogLines ls := by
        show (l :: ls).foldl readStep [] = _
        simp only [List.foldl_cons]
        rw [readLogLines_acc]
      rw [h1, ih, List.filterMap_cons]
      unfold readStep
      by_cases hb : headIsBrace l
      · cases hj : jsonParse l <;> simp [hb, hj]
      · simp [hb]

theorem filterMap_self_of_some {α : Type} (f : α → Option α) (L : List α)
    (h : ∀ a ∈ L, f a = some a) : L.filterMap f = L := by
  induction L with
  | nil => rfl
  | cons a L ih =>
      rw [List.filterMap_cons, h a (by simp)]
      rw [ih (fun x hx => h x (by simp [hx]))]

/-- C8: JSON-Lines round-trip stability.  For every log file, reading it,
writing the parsed entries back out verbatim (one JSON object per line via
`JSON.stringify`), and re-reading yields the same sequence of entries —
session markers and unparseable lines being ignored by both reads. -/
theorem readLog_roundtrip (lines : List String) :
    readLogLines ((readLogLines lines).map stringify) = readLogLines lines := by
  conv_lhs => rw [readLogLines_eq_filterMap, List.filterMap_map]
  rw [readLogLines_eq_filterMap lines]
  apply filterMap_self_of_some
  intro j hj
  obtain ⟨l, hl, hcl⟩ := List.mem_filterMap.mp hj
  by_cases hb : headIsBrace l
  · rw [if_pos hb] at hcl
    obtain ⟨fs, rfl⟩ := jsonParse_brace_obj l hb j hcl
    show (if headIsBrace (stringify (Json.obj fs)) then jsonParse (stringify (Json.obj fs))
      else none) = some (Json.obj fs)
    simp [headIsBrace_stringify_obj, jsonParse_stringify]
  · rw [if_neg hb] at hcl
    exact absurd hcl (by simp)

end DebugTracer
